import Mathlib

/-!
Verification of the WPILOG-to-DataFrame converter core.

This file is a shallow embedding, in Lean, of the converter's core:

* the framed binary record decoder (`src/datalog.rs`),
* control-record decoding (Start / Finish / Set-Metadata),
* the type classifier (`src/types.rs`),
* the packed-struct schema parser, layout engine and deserializer
  (`src/struct_support/{parser,registry,deserializer}.rs`),
* the two-pass driver and sparse columnar accumulator
  (`src/converter.rs`, `src/builders.rs`, `src/schema.rs`).

Modelling conventions:

* Bytes are `Nat` (the source reads from `&[u8]`, whose elements are below
  256; `|=` of disjoint byte lanes in `read_varint` is rendered as addition,
  which agrees with the source on byte values).
* Rust strings are kept as their UTF-8 byte sequences (`List Nat`).  The
  source splits and compares strings only on ASCII bytes, where byte-level
  and char-level operations coincide; the lossy UTF-8 decode performed by
  `get_string` / `read_inner_string` is therefore modelled as the identity
  on the byte sequence.
* Rust slices `&data[a..b]` are rendered as `(data.drop a).take (b - a)`,
  and in-bounds indexing `data[i]` as `data.getD i 0`.
* Machine integers are `Nat` / `Int` with explicit `% 2 ^ w` at the points
  where the source casts (`as u32`, `as i64`).  Rust `1u64 << s` is
  rendered with the release-mode masked shift (shift amount taken mod 64);
  the debug build panics at `s = 64`, so either way the source does not
  compute `2 ^ 64 - 1` there.
* Errors mirror `WpilogError` with the message strings dropped (no claim
  inspects a message).
* `f64` / `f32` payloads are carried as their raw little-endian bit
  patterns (`Nat`); no claim depends on float arithmetic.
-/

/-- Mirror of `WpilogError` (`src/error.rs`), with message payloads dropped. -/
inductive WErr where
  | invalidFormat
  | invalidEntry
  | parseError
  | schemaError
  | polarsError
  | ioError
  | otherError
deriving DecidableEq, Repr

/-- Bytes of a Lean string literal, used to render the source's `&str`
constants as byte sequences. -/
def strBytes (s : String) : List Nat :=
  s.data.map Char.toNat

/-- Mirror of `read_varint` (`src/datalog.rs:400`): read `len` little-endian
bytes as an unsigned integer.  The source ORs disjoint byte lanes
(`val |= data[i] << (i*8)`); on byte values (< 256) this equals the
additive form used here. -/
def readVarint (data : List Nat) (len : Nat) : Nat :=
  match len with
  | 0 => 0
  | k + 1 => data.getD 0 0 + 256 * readVarint (data.drop 1) k

/-- Little-endian byte encoding of `n` on `len` bytes (specification-side
constructor used to state decode round-trips). -/
def leBytes (n : Nat) (len : Nat) : List Nat :=
  match len with
  | 0 => []
  | k + 1 => n % 256 :: leBytes (n / 256) k

theorem leBytes_length (n len : Nat) : (leBytes n len).length = len := by
  induction len generalizing n with
  | zero => rfl
  | succ k ih => simp [leBytes, ih]

theorem readVarint_leBytes (len : Nat) (n : Nat) (rest : List Nat)
    (h : n < 2 ^ (8 * len)) :
    readVarint (leBytes n len ++ rest) len = n := by
  induction len generalizing n with
  | zero =>
    simp only [Nat.mul_zero, pow_zero, Nat.lt_one_iff] at h
    simp [readVarint, h]
  | succ k ih =>
    have hdiv : n / 256 < 2 ^ (8 * k) := by
      have hn : n < 2 ^ (8 * k) * 256 := by
        have : 2 ^ (8 * (k + 1)) = 2 ^ (8 * k) * 256 := by ring
        omega
      exact Nat.div_lt_of_lt_mul (by omega)
    simp only [leBytes, readVarint, List.cons_append, List.getD, List.get?_eq_getElem?,
      List.drop_succ_cons, List.drop_zero]
    have := ih (n / 256) hdiv
    simp only [List.getElem?_cons_zero, Option.getD_some]
    rw [this]
    omega

/-- A decoded record, mirror of `DataLogRecord` (`src/datalog.rs`).
`entry` carries the `as u32` cast of the varint, `timestamp` the raw
`u64` microsecond value, `data` the payload bytes. -/
structure DataLogRecord where
  entry : Nat
  timestamp : Nat
  data : List Nat
deriving DecidableEq, Repr

/-- Entry-id field width encoded in the descriptor byte:
`(header_byte & 0x3) + 1` (`src/datalog.rs:365`). -/
def dlEntryLen (hb : Nat) : Nat := hb % 4 + 1

/-- Payload-size field width: `((header_byte >> 2) & 0x3) + 1`
(`src/datalog.rs:366`). -/
def dlSizeLen (hb : Nat) : Nat := hb / 4 % 4 + 1

/-- Timestamp field width: `((header_byte >> 4) & 0x7) + 1`
(`src/datalog.rs:367`). -/
def dlTsLen (hb : Nat) : Nat := hb / 16 % 8 + 1

/-- Total record-header length `1 + entry_len + size_len + timestamp_len`
for the suffix `s` of the input starting at the iterator position. -/
def dlHeaderLen (s : List Nat) : Nat :=
  1 + dlEntryLen (s.getD 0 0) + dlSizeLen (s.getD 0 0) + dlTsLen (s.getD 0 0)

/-- Declared payload size of the record at the head of suffix `s`. -/
def dlDeclSize (s : List Nat) : Nat :=
  readVarint (s.drop (1 + dlEntryLen (s.getD 0 0))) (dlSizeLen (s.getD 0 0))

/-- Mirror of `DataLogIterator::next` (`src/datalog.rs:359`), phrased on the
suffix of the input starting at `self.pos` (Rust's `self.pos + k` checks and
`&self.data[self.pos + a..]` slices become checks on `s.length` and `drop`s
of `s`).  Returns the yielded item together with the number of bytes
consumed; `none` is the iterator terminating. -/
def dlNextS (s : List Nat) : Option (Except WErr DataLogRecord × Nat) :=
  if s.length < 4 then none
  else
    let hb := s.getD 0 0
    let entryLen := dlEntryLen hb
    let sizeLen := dlSizeLen hb
    let tsLen := dlTsLen hb
    let headerLen := 1 + entryLen + sizeLen + tsLen
    if s.length < headerLen then none
    else
      let entry := readVarint (s.drop 1) entryLen
      let size := readVarint (s.drop (1 + entryLen)) sizeLen
      let ts := readVarint (s.drop (1 + entryLen + sizeLen)) tsLen
      if s.length < headerLen + size then none
      else
        some (Except.ok ⟨entry % 2 ^ 32, ts, (s.drop headerLen).take size⟩,
          headerLen + size)

theorem dlNextS_consumed {s : List Nat} {x : Except WErr DataLogRecord}
    {c : Nat} (h : dlNextS s = some (x, c)) : 4 ≤ c ∧ c ≤ s.length := by
  unfold dlNextS at h
  dsimp only at h
  split at h
  · exact absurd h (by simp)
  · split at h
    · exact absurd h (by simp)
    · split at h
      · exact absurd h (by simp)
      · simp only [Option.some.injEq, Prod.mk.injEq] at h
        obtain ⟨-, hc⟩ := h
        subst hc
        unfold dlEntryLen dlSizeLen dlTsLen at *
        omega

/-- The lazy record sequence produced by repeatedly calling
`DataLogIterator::next` from the suffix `s` (each item of the Rust iterator
is a `Result`, mirrored by `Except`). -/
def dlRecordsFrom (s : List Nat) : List (Except WErr DataLogRecord) :=
  match h : dlNextS s with
  | none => []
  | some (item, c) =>
    have hc := dlNextS_consumed h
    item :: dlRecordsFrom (s.drop c)
termination_by s.length
decreasing_by
  simp only [List.length_drop]
  omega

/-- The bytes of the magic `"WPILOG"`. -/
def wpilogMagic : List Nat := strBytes ("WPILOG")

/-- Mirror of `DataLogReader::get_version` (`src/datalog.rs:307`): the
little-endian `u16` at offset 6, or 0 when fewer than 12 bytes. -/
def dlVersion (data : List Nat) : Nat :=
  if data.length < 12 then 0 else readVarint (data.drop 6) 2

/-- Mirror of `DataLogReader::is_valid` (`src/datalog.rs:302`). -/
def dlIsValid (data : List Nat) : Bool :=
  decide (12 ≤ data.length) && decide (data.take 6 = wpilogMagic)
    && decide (256 ≤ dlVersion data)

/-- Extra-header length: the little-endian `u32` at offset 8. -/
def dlExtraHeaderLen (data : List Nat) : Nat :=
  readVarint (data.drop 8) 4

/-- Mirror of `DataLogReader::records` (`src/datalog.rs:332`): header
validation, then iteration from `12 + extra_header_len`. -/
def dlRecords (data : List Nat) :
    Except WErr (List (Except WErr DataLogRecord)) :=
  if dlIsValid data then
    Except.ok (dlRecordsFrom (data.drop (12 + dlExtraHeaderLen data)))
  else
    Except.error WErr.invalidFormat

/-- Mirror of `DataLogRecord::is_control` (`src/datalog.rs:43`). -/
def isControl (r : DataLogRecord) : Bool :=
  r.entry == 0

/-- Mirror of `DataLogRecord::is_start` (`src/datalog.rs:52`): a control
record with at least 17 payload bytes whose first payload byte is 0. -/
def isStart (r : DataLogRecord) : Bool :=
  r.entry == 0 && decide (17 ≤ r.data.length) && r.data.head? == some 0

/-- Mirror of `DataLogRecord::is_finish` (`src/datalog.rs:57`): a control
record with exactly 5 payload bytes whose first payload byte is 1. -/
def isFinish (r : DataLogRecord) : Bool :=
  r.entry == 0 && r.data.length == 5 && r.data.head? == some 1

/-- Mirror of `read_inner_string` (`src/datalog.rs:261`): a `u32`
length-prefixed string inside a payload.  The decoded string is kept as its
byte sequence (lossy UTF-8 decode modelled as the identity on bytes). -/
def readInnerString (data : List Nat) (pos : Nat) :
    Except WErr (List Nat × Nat) :=
  if data.length < pos + 4 then Except.error WErr.parseError
  else
    let size := readVarint (data.drop pos) 4
    if data.length < pos + 4 + size then Except.error WErr.parseError
    else Except.ok ((data.drop (pos + 4)).take size, pos + 4 + size)

/-- Data of a Start control record, mirror of `StartRecordData`
(`src/datalog.rs:19`); strings kept as byte sequences. -/
structure StartRecordData where
  entry : Nat
  name : List Nat
  typeName : List Nat
  metadata : List Nat
deriving DecidableEq, Repr

/-- Mirror of `DataLogRecord::get_start_data` (`src/datalog.rs:69`): the
declared entry id (`u32` at payload offset 1) followed by three
length-prefixed strings.  Note: no check that the declared entry is
nonzero. -/
def getStartData (r : DataLogRecord) : Except WErr StartRecordData :=
  if isStart r then do
    let entry := readVarint (r.data.drop 1) 4
    let (name, p1) ← readInnerString r.data 5
    let (typeName, p2) ← readInnerString r.data p1
    let (metadata, _) ← readInnerString r.data p2
    Except.ok ⟨entry, name, typeName, metadata⟩
  else Except.error WErr.parseError

/-- Mirror of `DataLogRecord::get_finish_entry` (`src/datalog.rs:91`). -/
def getFinishEntry (r : DataLogRecord) : Except WErr Nat :=
  if isFinish r then Except.ok (readVarint (r.data.drop 1) 4)
  else Except.error WErr.parseError

/-- Mirror of `DataLogRecord::get_string` (`src/datalog.rs:164`): the
payload bytes as a string (lossy decode modelled as identity). -/
def getString (r : DataLogRecord) : List Nat :=
  r.data

/-- Mirror of `PolarsDataType` (`src/types.rs`); struct names are byte
sequences. -/
inductive PolarsDataType where
  | float64
  | float32
  | int64
  | boolean
  | string
  | booleanArray
  | int64Array
  | float32Array
  | float64Array
  | stringArray
  | structT (name : List Nat)
  | structArray (name : List Nat)
deriving DecidableEq, Repr

/-- Mirror of `PolarsDataType::from_wpilog_type` (`src/types.rs:32`).  The
Rust function returns `Result` but never errors (unknown types degrade to
`String` with a warning), so the model returns the type directly. -/
def fromWpilogType (t : List Nat) : PolarsDataType :=
  if t = strBytes ("double") then .float64
  else if t = strBytes ("float") then .float32
  else if t = strBytes ("int64") then .int64
  else if t = strBytes ("boolean") then .boolean
  else if t = strBytes ("string") then .string
  else if t = strBytes ("raw") then .string
  else if t = strBytes ("boolean[]") then .booleanArray
  else if t = strBytes ("int64[]") then .int64Array
  else if t = strBytes ("float[]") then .float32Array
  else if t = strBytes ("double[]") then .float64Array
  else if t = strBytes ("string[]") then .stringArray
  else if t = strBytes ("msgpack") then .string
  else if t = strBytes ("json") then .string
  else if t = strBytes ("protobuf") then .string
  else if (strBytes ("struct:")).isPrefixOf t ∧ (strBytes ("[]")).isSuffixOf t
  then .structArray ((t.drop 7).take (t.length - 9))
  else if (strBytes ("struct:")).isPrefixOf t then .structT (t.drop 7)
  else .string

/-- The `as i64` reinterpretation of a `u64` value as a two's-complement
signed 64-bit integer (`record.timestamp as i64`, `src/converter.rs:194`). -/
def i64OfU64 (t : Nat) : Int :=
  if t % 2 ^ 64 < 2 ^ 63 then (t % 2 ^ 64 : Nat)
  else (t % 2 ^ 64 : Nat) - 2 ^ 64

/-- Mirror of `IntegerType` (`src/struct_support/types.rs:66`). -/
inductive IntegerType where
  | boolT
  | int8
  | int16
  | int32
  | int64
  | uint8
  | uint16
  | uint32
  | uint64
deriving DecidableEq, Repr

/-- Mirror of `IntegerType::size` (`src/struct_support/types.rs:80`). -/
def IntegerType.size : IntegerType → Nat
  | .boolT | .int8 | .uint8 => 1
  | .int16 | .uint16 => 2
  | .int32 | .uint32 => 4
  | .int64 | .uint64 => 8

/-- Mirror of `IntegerType::max_bits` (`src/struct_support/types.rs:90`).
Note `max_bits(bool) = 1`: on `bool` only a bit width of exactly 1 passes
the parser's validation. -/
def IntegerType.maxBits : IntegerType → Nat
  | .boolT => 1
  | .int8 | .uint8 => 8
  | .int16 | .uint16 => 16
  | .int32 | .uint32 => 32
  | .int64 | .uint64 => 64

/-- Width in bits of an integer type, mirror of both
`StructRegistry::integer_type_width` (`src/struct_support/registry.rs:185`)
and `IntegerType::width` (`src/struct_support/deserializer.rs:270`), which
are identical.  Note `width(bool) = 8` (a `bool` bit-field occupies an
8-bit storage unit) although `max_bits(bool) = 1`. -/
def IntegerType.width : IntegerType → Nat
  | .boolT | .int8 | .uint8 => 8
  | .int16 | .uint16 => 16
  | .int32 | .uint32 => 32
  | .int64 | .uint64 => 64

/-- Mirror of `FieldType` (`src/struct_support/types.rs:44`); struct
references carry the referenced struct's name bytes. -/
inductive FieldType where
  | boolT
  | charT
  | int8
  | int16
  | int32
  | int64
  | uint8
  | uint16
  | uint32
  | uint64
  | float32
  | float64
  | array (elemType : FieldType) (length : Nat)
  | structRef (name : List Nat)
deriving DecidableEq, Repr

/-- Mirror of `EnumSpec` (`src/struct_support/types.rs:103`); the
`value → name` hash map is an association list in insertion order. -/
structure EnumSpec where
  values : List (Int × List Nat)
deriving DecidableEq, Repr

/-- Mirror of `StandardField` (`src/struct_support/types.rs:22`). -/
structure StandardField where
  name : List Nat
  fieldType : FieldType
  offset : Nat
  size : Nat
  enumSpec : Option EnumSpec
deriving DecidableEq, Repr

/-- Mirror of `BitFieldDecl` (`src/struct_support/types.rs:32`). -/
structure BitFieldDecl where
  name : List Nat
  intType : IntegerType
  bitWidth : Nat
  storageOffset : Nat
  bitOffset : Nat
  spansUnits : Bool
  enumSpec : Option EnumSpec
deriving DecidableEq, Repr

/-- Mirror of `StructField` (`src/struct_support/types.rs:15`). -/
inductive StructField where
  | standard (f : StandardField)
  | bitField (bf : BitFieldDecl)
deriving DecidableEq, Repr

/-- Mirror of `StructSchema` (`src/struct_support/types.rs:7`). -/
structure StructSchema where
  name : List Nat
  fields : List StructField
  totalSize : Nat
deriving DecidableEq, Repr

/-- ASCII whitespace bytes.  Rust's `char::is_whitespace` / `str::trim`
recognize further Unicode whitespace; schema texts use ASCII whitespace
only, where the two coincide. -/
def wsByte (b : Nat) : Bool :=
  b == 32 || b == 9 || b == 10 || b == 13 || b == 11 || b == 12

/-- Mirror of `str::trim` on byte sequences. -/
def trimBytes (l : List Nat) : List Nat :=
  ((l.dropWhile wsByte).reverse.dropWhile wsByte).reverse

/-- Mirror of `str::split_whitespace`, accumulator-based: maximal runs of
non-whitespace bytes, in order, with no empty items. -/
def splitWsAux (acc : List Nat) : List Nat → List (List Nat)
  | [] => if acc.isEmpty then [] else [acc.reverse]
  | b :: rest =>
    if wsByte b then
      if acc.isEmpty then splitWsAux [] rest
      else acc.reverse :: splitWsAux [] rest
    else splitWsAux (b :: acc) rest

/-- The whitespace-separated tokens of a byte sequence. -/
def splitWs (l : List Nat) : List (List Nat) :=
  splitWsAux [] l

/-- Digit accumulation for Rust's unsigned `from_str`: `none` on any
non-digit byte. -/
def digitsValAux (acc : Nat) : List Nat → Option Nat
  | [] => some acc
  | b :: rest =>
    if 48 ≤ b ∧ b ≤ 57 then digitsValAux (acc * 10 + (b - 48)) rest
    else none

/-- Mirror of Rust `str::parse::<uN>` / `parse::<usize>` on byte sequences:
an optional leading `+`, then a nonempty digit run whose value is at most
`bound` (parsing larger values overflows and errors in Rust). -/
def parseUIntBytes (l : List Nat) (bound : Nat) : Except WErr Nat :=
  let l1 := if l.head? = some 43 then l.drop 1 else l
  if l1.isEmpty then Except.error WErr.parseError
  else
    match digitsValAux 0 l1 with
    | some v => if v ≤ bound then Except.ok v else Except.error WErr.parseError
    | none => Except.error WErr.parseError

/-- Mirror of Rust `str::parse::<i64>`: optional sign, digits, 64-bit
two's-complement range. -/
def parseI64Bytes (l : List Nat) : Except WErr Int :=
  if l.head? = some 45 then do
    let v ← parseUIntBytes (l.drop 1) (2 ^ 63)
    if (l.drop 1).head? = some 43 then Except.error WErr.parseError
    else Except.ok (-(v : Int))
  else do
    let v ← parseUIntBytes l (2 ^ 63 - 1)
    Except.ok (v : Int)

/-- The byte of an opening brace. -/
def lbrace : Nat := 123

/-- The byte of a closing brace. -/
def rbrace : Nat := 125

/-- Mirror of `SchemaParser::parse_enum_spec` (`src/struct_support/parser.rs:193`). -/
def parseEnumSpec (text : List Nat) : Except WErr EnumSpec := do
  let text := trimBytes text
  if text.head? = some lbrace ∧ text.getLast? = some rbrace then
    let inner := (text.drop 1).take (text.length - 2)
    if (trimBytes inner).isEmpty then Except.ok ⟨[]⟩
    else
      let entries := inner.splitOn 44
      let values ← entries.foldlM (fun (vs : List (Int × List Nat)) entry => do
        let entry := trimBytes entry
        if entry.isEmpty then Except.ok vs
        else
          let parts := entry.splitOn 61
          if parts.length ≠ 2 then Except.error WErr.parseError
          else do
            let name := trimBytes (parts.getD 0 [])
            let value ← parseI64Bytes (trimBytes (parts.getD 1 []))
            Except.ok ((value, name) :: vs.eraseP (fun p => p.1 == value))) []
      Except.ok ⟨values⟩
  else Except.error WErr.parseError

/-- Mirror of `SchemaParser::extract_enum_spec`
(`src/struct_support/parser.rs:166`).  Returns the optional enum
specification and the remaining declaration text. -/
def extractEnumSpec (decl : List Nat) :
    Except WErr (Option EnumSpec × List Nat) :=
  let trimmed := trimBytes decl
  if (strBytes ("enum")).isPrefixOf trimmed then
    match trimmed.findIdx? (· == lbrace) with
    | none => Except.error WErr.parseError
    | some startPos =>
      match trimmed.findIdx? (· == rbrace) with
      | none => Except.error WErr.parseError
      | some endPos => do
        let enumText := (trimmed.drop startPos).take (endPos + 1 - startPos)
        let remaining := trimmed.drop (endPos + 1)
        let spec ← parseEnumSpec enumText
        Except.ok (some spec, remaining)
  else if trimmed.head? = some lbrace then
    match trimmed.findIdx? (· == rbrace) with
    | none => Except.error WErr.parseError
    | some endPos => do
      let enumText := trimmed.take (endPos + 1)
      let remaining := trimmed.drop (endPos + 1)
      let spec ← parseEnumSpec enumText
      Except.ok (some spec, remaining)
  else Except.ok (none, trimmed)

/-- Mirror of `SchemaParser::parse_type` (`src/struct_support/parser.rs:240`):
scalar keywords, otherwise a struct reference (never fails). -/
def parseFieldTypeName (t : List Nat) : FieldType :=
  if t = strBytes ("bool") then .boolT
  else if t = strBytes ("char") then .charT
  else if t = strBytes ("int8") then .int8
  else if t = strBytes ("int16") then .int16
  else if t = strBytes ("int32") then .int32
  else if t = strBytes ("int64") then .int64
  else if t = strBytes ("uint8") then .uint8
  else if t = strBytes ("uint16") then .uint16
  else if t = strBytes ("uint32") then .uint32
  else if t = strBytes ("uint64") then .uint64
  else if t = strBytes ("float") ∨ t = strBytes ("float32") then .float32
  else if t = strBytes ("double") ∨ t = strBytes ("float64") then .float64
  else .structRef t

/-- Mirror of `SchemaParser::parse_integer_type`
(`src/struct_support/parser.rs:262`). -/
def parseIntegerTypeName (t : List Nat) : Except WErr IntegerType :=
  if t = strBytes ("bool") then Except.ok .boolT
  else if t = strBytes ("int8") then Except.ok .int8
  else if t = strBytes ("int16") then Except.ok .int16
  else if t = strBytes ("int32") then Except.ok .int32
  else if t = strBytes ("int64") then Except.ok .int64
  else if t = strBytes ("uint8") then Except.ok .uint8
  else if t = strBytes ("uint16") then Except.ok .uint16
  else if t = strBytes ("uint32") then Except.ok .uint32
  else if t = strBytes ("uint64") then Except.ok .uint64
  else Except.error WErr.parseError

/-- Mirror of `SchemaParser::parse_standard_declaration`
(`src/struct_support/parser.rs:43`). -/
def parseStandardDeclaration (decl : List Nat) : Except WErr StructField := do
  let (enumSpec, rest) ← extractEnumSpec decl
  let rest := trimBytes rest
  let tokens := splitWs rest
  if tokens.length < 2 then Except.error WErr.parseError
  else
    let typeStr := tokens.getD 0 []
    let nameAndArray := List.intercalate [32] (tokens.drop 1)
    match nameAndArray.findIdx? (· == 91) with
    | some bracketPos =>
      let name := trimBytes (nameAndArray.take bracketPos)
      let arrayPart := nameAndArray.drop bracketPos
      if arrayPart.getLast? ≠ some 93 then Except.error WErr.parseError
      else do
        let sizeStr := trimBytes ((arrayPart.drop 1).take (arrayPart.length - 2))
        let length ← parseUIntBytes sizeStr (2 ^ 64 - 1)
        let elemType := parseFieldTypeName typeStr
        Except.ok (.standard ⟨name, .array elemType length, 0, 0, enumSpec⟩)
    | none =>
      Except.ok (.standard
        ⟨trimBytes nameAndArray, parseFieldTypeName typeStr, 0, 0, enumSpec⟩)

/-- Mirror of `SchemaParser::parse_bitfield_declaration`
(`src/struct_support/parser.rs:101`): split on `:`, parse the bit width as
a `u8`, reject width 0, parse the integer type, and reject widths above
`max_bits` of that type. -/
def parseBitfieldDeclaration (decl : List Nat) : Except WErr StructField := do
  let (enumSpec, rest) ← extractEnumSpec decl
  let rest := trimBytes rest
  let parts := rest.splitOn 58
  if parts.length ≠ 2 then Except.error WErr.parseError
  else do
    let left := trimBytes (parts.getD 0 [])
    let bitWidthStr := trimBytes (parts.getD 1 [])
    let bitWidth ← parseUIntBytes bitWidthStr 255
    if bitWidth = 0 then Except.error WErr.parseError
    else
      let tokens := splitWs left
      if tokens.length < 2 then Except.error WErr.parseError
      else do
        let typeStr := tokens.getD 0 []
        let name := List.intercalate [32] (tokens.drop 1)
        let intType ← parseIntegerTypeName typeStr
        if intType.maxBits < bitWidth then Except.error WErr.parseError
        else Except.ok (.bitField ⟨name, intType, bitWidth, 0, 0, false, enumSpec⟩)

/-- Mirror of `SchemaParser::parse_declaration`
(`src/struct_support/parser.rs:31`): a declaration containing `:` is a
bit-field, otherwise standard. -/
def parseDeclaration (decl : List Nat) : Except WErr StructField :=
  let decl := trimBytes decl
  if decl.contains 58 then parseBitfieldDeclaration decl
  else parseStandardDeclaration decl

/-- Mirror of `SchemaParser::parse` (`src/struct_support/parser.rs:13`):
split the schema text on `;`, skip empty declarations, parse the rest. -/
def schemaParse (text : List Nat) : Except WErr (List StructField) :=
  (text.splitOn 59).foldlM (fun (fields : List StructField) decl => do
    if (trimBytes decl).isEmpty then Except.ok fields
    else do
      let f ← parseDeclaration decl
      Except.ok (fields ++ [f])) []

/-- The struct registry (`StructRegistry`,
`src/struct_support/registry.rs:7`): a name-keyed map of schemas, rendered
as an association list where insertion prepends (like `HashMap::insert`,
the most recent binding for a name wins). -/
def StructRegistry := List (List Nat × StructSchema)

/-- Mirror of `StructRegistry::get`. -/
def regGet (reg : StructRegistry) (name : List Nat) : Option StructSchema :=
  (reg.find? (fun p => p.1 == name)).map (·.2)

/-- Mirror of `StructRegistry::calculate_field_size`
(`src/struct_support/registry.rs:89`). -/
def calcFieldSize (reg : StructRegistry) : FieldType → Except WErr Nat
  | .boolT | .int8 | .uint8 => Except.ok 1
  | .int16 | .uint16 => Except.ok 2
  | .int32 | .uint32 | .float32 => Except.ok 4
  | .int64 | .uint64 | .float64 => Except.ok 8
  | .charT => Except.ok 1
  | .array elemType length => do
    let elemSize ← calcFieldSize reg elemType
    Except.ok (elemSize * length)
  | .structRef name =>
    match regGet reg name with
    | some schema => Except.ok schema.totalSize
    | none => Except.error WErr.schemaError

/-- The inner per-group loop of `StructRegistry::pack_bitfields`
(`src/struct_support/registry.rs:151`): assign storage offsets, bit
offsets and the spans-units flag to each field of one same-type group,
accumulating bit offsets low-to-high from 0. -/
def packGroup (offset typeWidth typeSize : Nat) :
    Nat → List BitFieldDecl → List StructField
  | _, [] => []
  | bitOffset, bf :: rest =>
    let startUnit := bitOffset / typeWidth
    let endBit := bitOffset + bf.bitWidth
    let endUnit := (endBit - 1) / typeWidth
    StructField.bitField { bf with
        storageOffset := offset + startUnit * typeSize,
        bitOffset := bitOffset % typeWidth,
        spansUnits := decide (startUnit < endUnit) }
      :: packGroup offset typeWidth typeSize (bitOffset + bf.bitWidth) rest

theorem dropWhile_length_le {α : Type} (p : α → Bool) (l : List α) :
    (l.dropWhile p).length ≤ l.length := by
  induction l with
  | nil => simp
  | cons a l ih =>
    by_cases h : p a <;> simp [List.dropWhile_cons, h] <;> omega

/-- The outer run loop of `StructRegistry::pack_bitfields`
(`src/struct_support/registry.rs:120`): split the list into maximal runs of
consecutive bit-fields with the same underlying type; each run consumes
`ceil(total_bits / type_width)` storage units starting at the current
offset.  Returns the packed fields and the offset past the last run.
`fuel` makes the recursion structural; each step consumes at least one
declaration, so `packBitfields` below never exhausts it. -/
def packBitfieldsFuel : Nat → List BitFieldDecl → Nat → List StructField × Nat
  | 0, _, offset => ([], offset)
  | _ + 1, [], offset => ([], offset)
  | fuel + 1, bf :: rest, offset =>
    let group := bf :: rest.takeWhile (fun b => b.intType == bf.intType)
    let rest2 := rest.dropWhile (fun b => b.intType == bf.intType)
    let typeWidth := bf.intType.width
    let typeSize := bf.intType.size
    let totalBits := (group.map (·.bitWidth)).sum
    let numUnits := (totalBits + typeWidth - 1) / typeWidth
    let packed := packGroup offset typeWidth typeSize 0 group
    let pr := packBitfieldsFuel fuel rest2 (offset + numUnits * typeSize)
    (packed ++ pr.1, pr.2)

/-- Mirror of `StructRegistry::pack_bitfields`. -/
def packBitfields (bfs : List BitFieldDecl) (offset : Nat) :
    List StructField × Nat :=
  packBitfieldsFuel (bfs.length + 1) bfs offset

/-- Mirror of `LayoutResult` (`src/struct_support/registry.rs:207`). -/
structure LayoutResult where
  fields : List StructField
  totalSize : Nat
deriving DecidableEq, Repr

/-- The walk of `StructRegistry::calculate_layout`
(`src/struct_support/registry.rs:39`): standard fields flush the pending
bit-field run (at the current offset) and are laid out at the resulting
cursor; bit-fields accumulate into `pending`.  At the end the remaining
pending bit-fields are flushed and the cursor is the total size. -/
def calcLayoutAux (reg : StructRegistry) :
    List StructField → Nat → List BitFieldDecl → List StructField →
    Except WErr LayoutResult
  | [], offset, pending, acc =>
    let pr := packBitfields pending offset
    Except.ok ⟨acc ++ pr.1, pr.2⟩
  | .standard f :: rest, offset, pending, acc => do
    let pr := packBitfields pending offset
    let size ← calcFieldSize reg f.fieldType
    calcLayoutAux reg rest (pr.2 + size) []
      (acc ++ pr.1 ++ [.standard { f with offset := pr.2, size := size }])
  | .bitField bf :: rest, offset, pending, acc =>
    calcLayoutAux reg rest offset (pending ++ [bf]) acc

/-- Mirror of `StructRegistry::calculate_layout`. -/
def calculateLayout (reg : StructRegistry) (fields : List StructField) :
    Except WErr LayoutResult :=
  calcLayoutAux reg fields 0 [] []

/-- Mirror of `StructRegistry::register`
(`src/struct_support/registry.rs:19`). -/
def registerStruct (reg : StructRegistry) (name : List Nat)
    (text : List Nat) : Except WErr StructRegistry := do
  let fields ← schemaParse text
  let layout ← calculateLayout reg fields
  Except.ok (((name, ⟨name, layout.fields, layout.totalSize⟩) :: reg) : StructRegistry)

/-- A deserialized field value, mirror of `FieldValue`
(`src/struct_support/deserializer.rs:289`), with `StructValue` inlined as
the `structV` constructor (name plus fields in schema order; the source's
`HashMap` is rendered as an association list in insertion order).  `char`
is carried as its byte, floats as their raw little-endian bit patterns. -/
inductive FieldValue where
  | boolV (b : Bool)
  | charV (c : Nat)
  | int8V (v : Int)
  | int16V (v : Int)
  | int32V (v : Int)
  | int64V (v : Int)
  | uint8V (v : Nat)
  | uint16V (v : Nat)
  | uint32V (v : Nat)
  | uint64V (v : Nat)
  | float32V (bits : Nat)
  | float64V (bits : Nat)
  | arrayV (vs : List FieldValue)
  | structV (name : List Nat) (fields : List (List Nat × FieldValue))
deriving Repr

/-- The signed value of a `w`-byte little-endian read (Rust `read_iN`):
the raw unsigned value reinterpreted in two's complement. -/
def intOfU (w : Nat) (raw : Nat) : Int :=
  if raw < 2 ^ (8 * w - 1) then (raw : Int) else (raw : Int) - 2 ^ (8 * w)

/-- Sign extension of a `w`-byte little-endian read into the `u64` domain
(the `as i8 as i64 as u64` chains of `read_integer_at`). -/
def sext64 (w : Nat) (raw : Nat) : Nat :=
  if raw < 2 ^ (8 * w - 1) then raw else 2 ^ 64 - 2 ^ (8 * w) + raw

/-- Mirror of `StructDeserializer::read_integer_at`
(`src/struct_support/deserializer.rs:249`): a storage unit read
little-endian at `offset`, sign-extended into `u64` for signed types.
The source indexes the slice directly (panicking when out of bounds, which
is unreachable under the deserializer's size check); the model reads 0 for
missing bytes. -/
def readIntegerAt (data : List Nat) (offset : Nat) (t : IntegerType) :
    Except WErr Nat :=
  match t with
  | .boolT => Except.ok (data.getD offset 0)
  | .int8 => Except.ok (sext64 1 (readVarint (data.drop offset) 1))
  | .uint8 => Except.ok (readVarint (data.drop offset) 1)
  | .int16 => Except.ok (sext64 2 (readVarint (data.drop offset) 2))
  | .uint16 => Except.ok (readVarint (data.drop offset) 2)
  | .int32 => Except.ok (sext64 4 (readVarint (data.drop offset) 4))
  | .uint32 => Except.ok (readVarint (data.drop offset) 4)
  | .int64 => Except.ok (sext64 8 (readVarint (data.drop offset) 8))
  | .uint64 => Except.ok (readVarint (data.drop offset) 8)

/-- Rust `x << s` on `u64` in release mode: the shift amount is masked to
`s % 64` and the result truncated to 64 bits.  (A debug build panics when
`s = 64`; either way `1u64 << 64` does not produce `2 ^ 64`.) -/
def rustShl64 (x s : Nat) : Nat :=
  (x <<< (s % 64)) % 2 ^ 64

/-- Mirror of `StructDeserializer::deserialize_bitfield`
(`src/struct_support/deserializer.rs:206`).  Non-spanning fields shift the
storage unit right by the bit offset and mask by `(1 << bit_width) - 1`;
spanning fields combine the masked parts of two adjacent units.  The
extracted bits are zero-extended and stored as `i64`. -/
def deserializeBitfield (bf : BitFieldDecl) (data : List Nat) :
    Except WErr FieldValue := do
  let typeWidth := bf.intType.width
  let typeSize := bf.intType.size
  let storageVal ←
    if bf.spansUnits then do
      let unit1 ← readIntegerAt data bf.storageOffset bf.intType
      let unit2 ← readIntegerAt data (bf.storageOffset + typeSize) bf.intType
      let bitsInFirst := typeWidth - bf.bitOffset
      let mask1 := (rustShl64 1 bitsInFirst - 1) <<< bf.bitOffset % 2 ^ 64
      let val1 := (unit1 &&& mask1) >>> bf.bitOffset
      let bitsInSecond := bf.bitWidth - bitsInFirst
      let mask2 := rustShl64 1 bitsInSecond - 1
      let val2 := unit2 &&& mask2
      pure ((val1 ||| val2 <<< bitsInFirst) % 2 ^ 64)
    else do
      let storage ← readIntegerAt data bf.storageOffset bf.intType
      let mask := rustShl64 1 bf.bitWidth - 1
      pure ((storage >>> bf.bitOffset) &&& mask)
  Except.ok (.int64V (i64OfU64 storageVal))

/-- Mirror of `StructDeserializer::calculate_elem_size`
(`src/struct_support/deserializer.rs:189`). -/
def calcElemSize (reg : StructRegistry) : FieldType → Except WErr Nat
  | .boolT | .charT | .int8 | .uint8 => Except.ok 1
  | .int16 | .uint16 => Except.ok 2
  | .int32 | .uint32 | .float32 => Except.ok 4
  | .int64 | .uint64 | .float64 => Except.ok 8
  | .structRef name =>
    match regGet reg name with
    | some schema => Except.ok schema.totalSize
    | none => Except.error WErr.schemaError
  | .array _ _ => Except.error WErr.parseError

mutual

/-- Mirror of `StructDeserializer::deserialize`
(`src/struct_support/deserializer.rs:53`): look up the schema, check the
data is at least `total_size` bytes, and deserialize each field.  `fuel`
bounds the struct-nesting depth: the source recurses unboundedly (and
would overflow the stack on a pathological self-referential registry);
every registry built by `register` resolves nested references against
previously registered schemas, so a depth of `reg.length + 1` always
suffices for it. -/
def deserializeStruct (reg : StructRegistry) (fuel : Nat) (name : List Nat)
    (data : List Nat) : Except WErr FieldValue :=
  match fuel with
  | 0 => Except.error WErr.parseError
  | f + 1 =>
    match regGet reg name with
    | none => Except.error WErr.schemaError
    | some schema =>
      if data.length < schema.totalSize then Except.error WErr.parseError
      else do
        let fields ← deserializeFieldsList reg f schema.fields data
        Except.ok (.structV name fields)
termination_by (fuel, 0, 0)

/-- The field loop of `StructDeserializer::deserialize`. -/
def deserializeFieldsList (reg : StructRegistry) (fuel : Nat)
    (fs : List StructField) (data : List Nat) :
    Except WErr (List (List Nat × FieldValue)) :=
  match fs with
  | [] => Except.ok []
  | .standard f :: rest => do
    have hf : sizeOf f.fieldType < sizeOf f := by cases f; simp; omega
    let v ← deserializeStandardField reg fuel f data
    let tail ← deserializeFieldsList reg fuel rest data
    Except.ok ((f.name, v) :: tail)
  | .bitField bf :: rest => do
    let v ← deserializeBitfield bf data
    let tail ← deserializeFieldsList reg fuel rest data
    Except.ok ((bf.name, v) :: tail)
termination_by (fuel, sizeOf fs + 1, 0)

/-- Mirror of `StructDeserializer::deserialize_standard_field`
(`src/struct_support/deserializer.rs:89`): scalars are read little-endian
at the field's offset, arrays element by element, nested structs
recursively on the field's sub-slice. -/
def deserializeStandardField (reg : StructRegistry) (fuel : Nat)
    (f : StandardField) (data : List Nat) : Except WErr FieldValue :=
  match hft : f.fieldType with
  | .boolT => Except.ok (.boolV (data.getD f.offset 0 != 0))
  | .charT => Except.ok (.charV (data.getD f.offset 0))
  | .int8 => Except.ok (.int8V (intOfU 1 (readVarint (data.drop f.offset) 1)))
  | .int16 => Except.ok (.int16V (intOfU 2 (readVarint (data.drop f.offset) 2)))
  | .int32 => Except.ok (.int32V (intOfU 4 (readVarint (data.drop f.offset) 4)))
  | .int64 => Except.ok (.int64V (intOfU 8 (readVarint (data.drop f.offset) 8)))
  | .uint8 => Except.ok (.uint8V (readVarint (data.drop f.offset) 1))
  | .uint16 => Except.ok (.uint16V (readVarint (data.drop f.offset) 2))
  | .uint32 => Except.ok (.uint32V (readVarint (data.drop f.offset) 4))
  | .uint64 => Except.ok (.uint64V (readVarint (data.drop f.offset) 8))
  | .float32 => Except.ok (.float32V (readVarint (data.drop f.offset) 4))
  | .float64 => Except.ok (.float64V (readVarint (data.drop f.offset) 8))
  | .array elemType length => do
    have ha : sizeOf elemType < sizeOf f.fieldType := by rw [hft]; simp; omega
    let elemSize ← calcElemSize reg elemType
    let vs ← deserializeArrayLoop reg fuel elemType length f.offset elemSize data
    Except.ok (.arrayV vs)
  | .structRef name =>
    match regGet reg name with
    | none => Except.error WErr.schemaError
    | some nested =>
      deserializeStruct reg fuel name
        ((data.drop f.offset).take nested.totalSize)
termination_by (fuel, sizeOf f.fieldType + 1, 1)

/-- The element loop of the array case of `deserialize_standard_field`:
element `i` is read at `offset + i * elem_size`. -/
def deserializeArrayLoop (reg : StructRegistry) (fuel : Nat)
    (elemType : FieldType) (count : Nat) (offset elemSize : Nat)
    (data : List Nat) : Except WErr (List FieldValue) :=
  match count with
  | 0 => Except.ok []
  | c + 1 => do
    let v ← deserializeArrayElem reg fuel elemType (data.drop offset)
    let tail ← deserializeArrayLoop reg fuel elemType c (offset + elemSize) elemSize data
    Except.ok (v :: tail)
termination_by (fuel, sizeOf elemType + 1, 1 + count)

/-- Mirror of `StructDeserializer::deserialize_array_element`
(`src/struct_support/deserializer.rs:164`). -/
def deserializeArrayElem (reg : StructRegistry) (fuel : Nat)
    (elemType : FieldType) (data : List Nat) : Except WErr FieldValue :=
  match elemType with
  | .boolT => Except.ok (.boolV (data.getD 0 0 != 0))
  | .charT => Except.ok (.charV (data.getD 0 0))
  | .int8 => Except.ok (.int8V (intOfU 1 (readVarint data 1)))
  | .int16 => Except.ok (.int16V (intOfU 2 (readVarint data 2)))
  | .int32 => Except.ok (.int32V (intOfU 4 (readVarint data 4)))
  | .int64 => Except.ok (.int64V (intOfU 8 (readVarint data 8)))
  | .uint8 => Except.ok (.uint8V (readVarint data 1))
  | .uint16 => Except.ok (.uint16V (readVarint data 2))
  | .uint32 => Except.ok (.uint32V (readVarint data 4))
  | .uint64 => Except.ok (.uint64V (readVarint data 8))
  | .float32 => Except.ok (.float32V (readVarint data 4))
  | .float64 => Except.ok (.float64V (readVarint data 8))
  | .structRef name => deserializeStruct reg fuel name data
  | .array _ _ => Except.error WErr.parseError
termination_by (fuel, sizeOf elemType + 1, 0)

end

/-- A typed accumulation value, mirror of `PolarsValue` (`src/types.rs:143`);
floats carried as raw bit patterns, strings as byte sequences. -/
inductive PolarsValue where
  | float64V (bits : Nat)
  | float32V (bits : Nat)
  | int64V (v : Int)
  | booleanV (b : Bool)
  | stringV (s : List Nat)
  | booleanArrayV (vs : List Bool)
  | int64ArrayV (vs : List Int)
  | float32ArrayV (bits : List Nat)
  | float64ArrayV (bits : List Nat)
  | stringArrayV (vs : List (List Nat))
  | structValV (v : FieldValue)
  | structArrayV (vs : List FieldValue)
deriving Repr

/-- The element loop of `get_integer_array` (`src/datalog.rs:188`):
consecutive 8-byte little-endian `i64`s. -/
def readI64Chunks (data : List Nat) : List Int :=
  match data with
  | [] => []
  | b :: rest => intOfU 8 (readVarint (b :: rest) 8) :: readI64Chunks (rest.drop 7)
termination_by data.length
decreasing_by
  simp only [List.length_drop, List.length_cons]
  omega

/-- The element loops of `get_float_array` / `get_double_array`
(`src/datalog.rs:204`, `src/datalog.rs:220`): consecutive `w`-byte
little-endian values, kept as bit patterns. -/
def readBitsChunks (w : Nat) (data : List Nat) : List Nat :=
  match data with
  | [] => []
  | b :: rest => readVarint (b :: rest) w :: readBitsChunks w (rest.drop (w - 1))
termination_by data.length
decreasing_by
  simp only [List.length_drop, List.length_cons]
  omega

/-- The string loop of `get_string_array` (`src/datalog.rs:250`). -/
def readStringArrayLoop (data : List Nat) :
    Nat → Nat → Except WErr (List (List Nat))
  | 0, _ => Except.ok []
  | c + 1, pos => do
    let (s, pos2) ← readInnerString data pos
    let tail ← readStringArrayLoop data c pos2
    Except.ok (s :: tail)

/-- Mirror of `DataLogRecord::get_string_array` (`src/datalog.rs:236`):
`u32` count (an I/O error on fewer than 4 bytes), a sanity bound
`count ≤ (len - 4) / 4`, then count length-prefixed strings. -/
def getStringArray (r : DataLogRecord) : Except WErr (List (List Nat)) :=
  if r.data.length < 4 then Except.error WErr.ioError
  else
    let size := readVarint r.data 4
    if (r.data.length - 4) / 4 < size then Except.error WErr.parseError
    else readStringArrayLoop r.data size 4

/-- The nesting-depth bound handed to the deserializer by the model (see
`deserializeStruct`): registries built by `register` resolve references to
previously registered structs only, so their nesting depth is below the
registry size. -/
def deserializeFuel (reg : StructRegistry) : Nat :=
  reg.length + 1

/-- The element loop of the `StructArray` case of
`WpilogConverter::parse_record_value` (`src/converter.rs:267`): chunk `i`
is `data[i*size .. (i+1)*size]`. -/
def structArrayLoop (reg : StructRegistry) (name : List Nat) (size : Nat)
    (data : List Nat) : Nat → Nat → Except WErr (List FieldValue)
  | 0, _ => Except.ok []
  | c + 1, start => do
    let v ← deserializeStruct reg (deserializeFuel reg) name
      ((data.drop start).take size)
    let tail ← structArrayLoop reg name size data c (start + size)
    Except.ok (v :: tail)

/-- Mirror of `WpilogConverter::parse_record_value`
(`src/converter.rs:218`) together with the `DataLogRecord::get_*` payload
decoders it dispatches to (`src/datalog.rs:116` onward): fixed-size checks
for scalars, divisibility checks for fixed-width arrays, the string-array
protocol, and struct / struct-array deserialization through the
registry. -/
def parseRecordValue (reg : StructRegistry) (dtype : PolarsDataType)
    (r : DataLogRecord) : Except WErr PolarsValue :=
  match dtype with
  | .float64 =>
    if r.data.length ≠ 8 then Except.error WErr.parseError
    else Except.ok (.float64V (readVarint r.data 8))
  | .float32 =>
    if r.data.length ≠ 4 then Except.error WErr.parseError
    else Except.ok (.float32V (readVarint r.data 4))
  | .int64 =>
    if r.data.length ≠ 8 then Except.error WErr.parseError
    else Except.ok (.int64V (intOfU 8 (readVarint r.data 8)))
  | .boolean =>
    if r.data.length ≠ 1 then Except.error WErr.parseError
    else Except.ok (.booleanV (r.data.getD 0 0 != 0))
  | .string => Except.ok (.stringV (getString r))
  | .booleanArray => Except.ok (.booleanArrayV (r.data.map (· != 0)))
  | .int64Array =>
    if r.data.length % 8 ≠ 0 then Except.error WErr.parseError
    else Except.ok (.int64ArrayV (readI64Chunks r.data))
  | .float32Array =>
    if r.data.length % 4 ≠ 0 then Except.error WErr.parseError
    else Except.ok (.float32ArrayV (readBitsChunks 4 r.data))
  | .float64Array =>
    if r.data.length % 8 ≠ 0 then Except.error WErr.parseError
    else Except.ok (.float64ArrayV (readBitsChunks 8 r.data))
  | .stringArray => do
    let vs ← getStringArray r
    Except.ok (.stringArrayV vs)
  | .structT name => do
    let v ← deserializeStruct reg (deserializeFuel reg) name r.data
    Except.ok (.structValV v)
  | .structArray name =>
    match regGet reg name with
    | none => Except.error WErr.schemaError
    | some schema =>
      if r.data.length % schema.totalSize ≠ 0 then Except.error WErr.parseError
      else do
        let vs ← structArrayLoop reg name schema.totalSize r.data
          (r.data.length / schema.totalSize) 0
        Except.ok (.structArrayV vs)

/-- Mirror of `ColumnInfo` (`src/schema.rs:16`); the `nullable` flag is
always `true` in the source and is omitted. -/
structure ColumnInfo where
  entryId : Nat
  name : List Nat
  dtype : PolarsDataType
  metadata : List Nat
deriving DecidableEq, Repr

/-- Mirror of `WpilogSchema` (`src/schema.rs:26`): the column list plus the
`entry_to_index` hash map, rendered as an association list where the most
recent insertion wins. -/
structure WpilogSchema where
  columns : List ColumnInfo
  entryToIndex : List (Nat × Nat)
deriving DecidableEq, Repr

/-- The empty schema (`WpilogSchema::new`). -/
def emptySchema : WpilogSchema := ⟨[], []⟩

/-- Mirror of `WpilogSchema::add_column` (`src/schema.rs:41`). -/
def addColumn (s : WpilogSchema) (c : ColumnInfo) : WpilogSchema :=
  ⟨s.columns ++ [c], (c.entryId, s.columns.length) :: s.entryToIndex⟩

/-- Mirror of `WpilogSchema::get_column_by_entry` (`src/schema.rs:48`). -/
def getColumnByEntry (s : WpilogSchema) (entryId : Nat) : Option ColumnInfo :=
  match s.entryToIndex.lookup entryId with
  | none => none
  | some idx => s.columns.get? idx

/-- The prefix `"/.schema/struct:"` of struct-schema entry names. -/
def schemaNamePrefix : List Nat := strBytes ("/.schema/struct:")

/-- The struct name declared by a structschema Start record: the suffix
after `"/.schema/struct:"`, or the full name when the prefix is absent
(`src/converter.rs:56`). -/
def stripSchemaPrefix (name : List Nat) : List Nat :=
  if schemaNamePrefix.isPrefixOf name then name.drop 16 else name

/-- Pass-1 state of `WpilogConverter::build_registry_and_schema`
(`src/converter.rs:38`): the structschema entry map, the captured schema
texts (`HashMap`s rendered as association lists with overwrite), the
column schema, and the finished-entry set. -/
structure Pass1State where
  schemaEntries : List (Nat × List Nat)
  schemaDefs : List (List Nat × List Nat)
  schema : WpilogSchema
  finished : List Nat
deriving DecidableEq, Repr

/-- The initial pass-1 state. -/
def pass1Init : Pass1State := ⟨[], [], emptySchema, []⟩

/-- One iteration of the pass-1 loop (`src/converter.rs:46`):
a Start either registers a structschema entry or (unless the declared
entry is finished) adds a column — with no check that the declared entry
id is nonzero; a Finish adds its entry to the finished set; a data record
for a structschema entry captures its payload as the schema text
(last write wins); everything else is ignored. -/
def pass1Step (st : Pass1State) (r : DataLogRecord) : Except WErr Pass1State :=
  if isStart r then do
    let sd ← getStartData r
    if sd.typeName = strBytes ("structschema") then
      Except.ok { st with
        schemaEntries := (sd.entry, stripSchemaPrefix sd.name) :: st.schemaEntries }
    else if st.finished.contains sd.entry then Except.ok st
    else Except.ok { st with
      schema := addColumn st.schema
        ⟨sd.entry, sd.name, fromWpilogType sd.typeName, sd.metadata⟩ }
  else if isFinish r then do
    let e ← getFinishEntry r
    Except.ok { st with finished := e :: st.finished }
  else if !isControl r ∧ (st.schemaEntries.lookup r.entry).isSome then
    let sname := (st.schemaEntries.lookup r.entry).getD []
    Except.ok { st with
      schemaDefs := (sname, getString r) :: st.schemaDefs.eraseP (fun d => d.1 == sname) }
  else Except.ok st

/-- One pass of the registration loop (`src/converter.rs:100`): try to
register every not-yet-registered captured struct, ignoring failures. -/
def registerPassOnce (defs : List (List Nat × List Nat)) :
    StructRegistry × List (List Nat) → StructRegistry × List (List Nat) :=
  fun st0 =>
    defs.foldl (fun (st : StructRegistry × List (List Nat)) d =>
      if st.2.contains d.1 then st
      else
        match registerStruct st.1 d.1 d.2 with
        | Except.ok reg2 => (reg2, d.1 :: st.2)
        | Except.error _ => st) st0

/-- The registration fixpoint loop: repeat passes while progress is made
and structs remain.  The Rust `while` loop runs at most `defs.length + 1`
passes (each non-final pass registers at least one struct), which is the
fuel used here.  (The source iterates the `HashMap` in arbitrary order;
the model iterates the captured list in order.  Structs that never
register are only warned about.) -/
def registerLoop (defs : List (List Nat × List Nat)) :
    Nat → StructRegistry → List (List Nat) → StructRegistry
  | 0, reg, _ => reg
  | n + 1, reg, registered =>
    if defs.length ≤ registered.length then reg
    else
      let (reg2, registered2) := registerPassOnce defs (reg, registered)
      if registered2.length = registered.length then reg2
      else registerLoop defs n reg2 registered2

/-- Mirror of `WpilogConverter::build_registry_and_schema`
(`src/converter.rs:38`): run pass 1 over the records, reject an empty
column schema, then resolve struct registrations. -/
def buildRegistryAndSchema (records : List DataLogRecord) :
    Except WErr (StructRegistry × WpilogSchema) := do
  let st ← records.foldlM pass1Step pass1Init
  if st.schema.columns.length = 0 then Except.error WErr.schemaError
  else
    Except.ok (registerLoop st.schemaDefs (st.schemaDefs.length + 1) [] [],
      st.schema)

/-- The emitted data frame: the `timestamp` column (column 0) and the
per-row value vectors handed to the column builders
(`DataFrameBuilder::push_row`, `src/builders.rs:290`).  The column
builders transpose these rows into per-column series; the Polars surface
beyond this point is outside the core. -/
structure DataFrameM where
  timestamps : List Int
  rows : List (List (Option PolarsValue))

/-- The height of the produced frame: every builder receives exactly one
value per pushed row, so the height is the length of the timestamp
column. -/
def DataFrameM.height (df : DataFrameM) : Nat :=
  df.timestamps.length

/-- Pass-2 accumulation state (`src/converter.rs:156`): the row under
construction and the rows already flushed. -/
structure AccState where
  curTs : Option Int
  curVals : List (Option PolarsValue)
  finished : List Nat
  tsCol : List Int
  rows : List (List (Option PolarsValue))

/-- The timestamp-change logic of the pass-2 loop (`src/converter.rs:192`):
flush the row under construction when the incoming timestamp differs
(strict inequality) from the current one; set the current timestamp when
none is set yet. -/
def flushIfNew (schema : WpilogSchema) (st : AccState) (newTs : Int) :
    AccState :=
  match st.curTs with
  | some ts =>
    if ts ≠ newTs then
      { st with
        tsCol := st.tsCol ++ [ts],
        rows := st.rows ++ [st.curVals],
        curVals := List.replicate schema.columns.length none,
        curTs := some newTs }
    else st
  | none => { st with curTs := some newTs }

/-- One iteration of the pass-2 loop (`src/converter.rs:161`): Finish
control records extend the finished set and all other control records are
skipped; data records for finished or unknown entries are skipped; a data
record whose timestamp differs (strict inequality) from the current row's
timestamp flushes the row; the decoded value is stored at the record's
column index (last write wins within a row). -/
def accumStep (schema : WpilogSchema) (reg : StructRegistry)
    (st : AccState) (r : DataLogRecord) : Except WErr AccState :=
  if isControl r then
    if isFinish r then do
      let e ← getFinishEntry r
      Except.ok { st with finished := e :: st.finished }
    else Except.ok st
  else if st.finished.contains r.entry then Except.ok st
  else
    match getColumnByEntry schema r.entry with
    | none => Except.ok st
    | some ci =>
      let k := schema.columns.findIdx (fun c => c.entryId == r.entry)
      let st1 := flushIfNew schema st (i64OfU64 r.timestamp)
      do
        let v ← parseRecordValue reg ci.dtype r
        Except.ok { st1 with curVals := st1.curVals.set k (some v) }

/-- Mirror of `WpilogConverter::accumulate_data` (`src/converter.rs:136`):
fold the pass-2 step over the records, then flush the final row iff a
current timestamp is set. -/
def accumulateData (schema : WpilogSchema) (reg : StructRegistry)
    (records : List DataLogRecord) : Except WErr DataFrameM := do
  let st0 : AccState :=
    ⟨none, List.replicate schema.columns.length none, [], [], []⟩
  let st ← records.foldlM (accumStep schema reg) st0
  match st.curTs with
  | some ts => Except.ok ⟨st.tsCol ++ [ts], st.rows ++ [st.curVals]⟩
  | none => Except.ok ⟨st.tsCol, st.rows⟩

/-- The two passes over an already-decoded record list: schema inference
then accumulation (`WpilogConverter::from_bytes`, `src/converter.rs:20`,
after the framing layer). -/
def convertRecords (records : List DataLogRecord) :
    Except WErr (WpilogSchema × DataFrameM) := do
  let (reg, schema) ← buildRegistryAndSchema records
  let df ← accumulateData schema reg records
  Except.ok (schema, df)

/-- Unwrap the `Result` items yielded by the record iterator.  Both passes
of the source bail out at the first `Err` item via `?`; by
`dl_records_all_ok`-style reasoning the iterator never yields one, so
sequencing the items up front is observationally the same. -/
def seqRecords (items : List (Except WErr DataLogRecord)) :
    Except WErr (List DataLogRecord) :=
  items.mapM (fun x => x)

/-- Mirror of `WpilogConverter::from_bytes` (`src/converter.rs:20`):
header validation, then the two passes over the decoded records. -/
def fromBytes (data : List Nat) : Except WErr DataFrameM := do
  if !dlIsValid data then Except.error WErr.invalidFormat
  else do
    let items ← dlRecords data
    let records ← seqRecords items
    let (_, df) ← convertRecords records
    Except.ok df

/-- Specification-side record framing (spec section 4.1): a descriptor
byte carrying `entry_len - 1` in bits [0..1], `size_len - 1` in bits
[2..3], `timestamp_len - 1` in bits [4..6] and `b7` in the reserved bit 7,
followed by the little-endian entry id, payload size and timestamp, then
the payload. -/
def encodeRecord (eL sL tL b7 : Nat) (entry ts : Nat) (payload : List Nat) :
    List Nat :=
  ((eL - 1) + 4 * (sL - 1) + 16 * (tL - 1) + 128 * b7)
    :: (leBytes entry eL ++ leBytes payload.length sL ++ leBytes ts tL
      ++ payload)

/-- The payload of a Start control record (spec section 4.2): control byte
0, the declared `u32` entry id, then three `u32`-length-prefixed strings:
name, type string, metadata. -/
def startPayload (entry : Nat) (name typeName metadata : List Nat) :
    List Nat :=
  0 :: (leBytes entry 4
    ++ leBytes name.length 4 ++ name
    ++ leBytes typeName.length 4 ++ typeName
    ++ leBytes metadata.length 4 ++ metadata)

/-- A decoded Start control record carrying the given declaration. -/
def mkStartRecord (ts entry : Nat) (name typeName metadata : List Nat) :
    DataLogRecord :=
  ⟨0, ts, startPayload entry name typeName metadata⟩

/-- A decoded Finish control record for the given entry id. -/
def mkFinishRecord (ts entry : Nat) : DataLogRecord :=
  ⟨0, ts, 1 :: leBytes entry 4⟩

/-- Tail worker for `coalesce`: `prev` is the timestamp of the run under
construction. -/
def coalRest (prev : Int) : List Int → List Int
  | [] => []
  | b :: l => if b = prev then coalRest prev l else b :: coalRest b l

/-- Specification-side coalescing of a timestamp sequence: merge each
maximal run of equal consecutive timestamps into one row (spec section 4.7:
a row ends exactly when the timestamp changes). -/
def coalesce : List Int → List Int
  | [] => []
  | a :: l => a :: coalRest a l

/-- Specification-side list of distinct values in order of first
appearance. -/
def firstOccur : List Int → List Int
  | [] => []
  | a :: l => a :: firstOccur (l.filter (fun x => x ≠ a))
termination_by l => l.length
decreasing_by
  simp only [List.length_cons]
  exact Nat.lt_succ_of_le (List.length_filter_le _ _)

/-- The finished-entry set update of the pass-2 loop: a Finish control
record inserts its declared entry id. -/
def p2Fin (fin : List Nat) (r : DataLogRecord) : List Nat :=
  if isFinish r then readVarint (r.data.drop 1) 4 :: fin else fin

/-- Whether a record reaches the pass-2 timestamp/value logic: a data
record (not control) whose entry is not finished and maps to a schema
column. -/
def p2Processed (schema : WpilogSchema) (fin : List Nat)
    (r : DataLogRecord) : Bool :=
  !isControl r && !fin.contains r.entry
    && (getColumnByEntry schema r.entry).isSome

/-- The timestamps (after the `as i64` cast) of the records processed by
pass 2, in order, tracking the evolving finished set. -/
def p2Ts (schema : WpilogSchema) (fin : List Nat) :
    List DataLogRecord → List Int
  | [] => []
  | r :: rs =>
    if p2Processed schema fin r then
      i64OfU64 r.timestamp :: p2Ts schema (p2Fin fin r) rs
    else p2Ts schema (p2Fin fin r) rs

/-- The raw (unsigned `u64`) timestamps of the records processed by
pass 2. -/
def p2TsRaw (schema : WpilogSchema) (fin : List Nat) :
    List DataLogRecord → List Nat
  | [] => []
  | r :: rs =>
    if p2Processed schema fin r then
      r.timestamp :: p2TsRaw schema (p2Fin fin r) rs
    else p2TsRaw schema (p2Fin fin r) rs

theorem dlNextS_isOk {s : List Nat} {x : Except WErr DataLogRecord} {c : Nat}
    (h : dlNextS s = some (x, c)) : ∃ r, x = Except.ok r := by
  unfold dlNextS at h
  dsimp only at h
  split at h
  · exact absurd h (by simp)
  · split at h
    · exact absurd h (by simp)
    · split at h
      · exact absurd h (by simp)
      · simp only [Option.some.injEq, Prod.mk.injEq] at h
        exact ⟨_, h.1.symm⟩

/-- C7: for every suffix of the input at the iterator position, if the
descriptor byte, the record header, or the declared payload would extend
past the end of the buffer, `DataLogIterator::next` returns `None` (no
error value), and the yielded record sequence is empty — no partial record
is produced. -/
theorem truncated_record_ends_iteration (s : List Nat)
    (h : s.length < 4 ∨ s.length < dlHeaderLen s
      ∨ s.length < dlHeaderLen s + dlDeclSize s) :
    dlNextS s = none ∧ dlRecordsFrom s = [] := by
  have hn : dlNextS s = none := by
    unfold dlNextS
    dsimp only
    split
    · rfl
    · split
      · rfl
      · split
        · rfl
        · exfalso
          unfold dlHeaderLen dlDeclSize at h
          omega
  refine ⟨hn, ?_⟩
  rw [dlRecordsFrom.eq_def]
  split
  · rfl
  · rename_i item c heq
    rw [hn] at heq
    cases heq

/-- Witness for C7 at a concrete truncated input: a 3-byte buffer is too
short even for the minimal record header. -/
theorem truncated_record_ends_iteration_witness :
    dlNextS [0, 1, 2] = none ∧ dlRecordsFrom [0, 1, 2] = [] :=
  truncated_record_ends_iteration [0, 1, 2] (Or.inl (by decide))

theorem dlRecordsFrom_all_ok :
    ∀ n s, s.length ≤ n → ∀ item ∈ dlRecordsFrom s, ∃ r, item = Except.ok r := by
  intro n
  induction n with
  | zero =>
    intro s hs item hmem
    rw [dlRecordsFrom.eq_def] at hmem
    split at hmem
    · cases hmem
    · rename_i item0 c heq
      have := dlNextS_consumed heq
      omega
  | succ n ih =>
    intro s hs item hmem
    rw [dlRecordsFrom.eq_def] at hmem
    split at hmem
    · cases hmem
    · rename_i item0 c heq
      have hc := dlNextS_consumed heq
      rcases List.mem_cons.mp hmem with hitem | htail
      · subst hitem
        exact dlNextS_isOk heq
      · exact ih (s.drop c) (by simp only [List.length_drop]; omega) item htail

/-- C9: the record iterator's item type is `Result`, but no yielded item is
ever an error: every element of the record sequence, from any position, is
`Ok`; and `DataLogReader::records` fails exactly when the file-header
validation fails (with `InvalidFormat`), so every framing-layer failure of
`parse` / `infer_schema` originates from header validation, not from
record iteration. -/
theorem record_iteration_never_errors :
    (∀ s item, item ∈ dlRecordsFrom s → ∃ r, item = Except.ok r) ∧
    (∀ data e, dlRecords data = Except.error e ↔
      (e = WErr.invalidFormat ∧ dlIsValid data = false)) := by
  constructor
  · intro s item hmem
    exact dlRecordsFrom_all_ok s.length s le_rfl item hmem
  · intro data e
    unfold dlRecords
    constructor
    · intro h
      split at h
      · cases h
      · rename_i hv
        simp only [Except.error.injEq] at h
        exact ⟨h.symm, by simpa using hv⟩
    · intro ⟨he, hv⟩
      subst he
      simp [hv]

/-- Witness for C9 at a concrete input: an empty buffer fails header
validation, and `records` surfaces exactly `InvalidFormat` for it. -/
theorem record_iteration_never_errors_witness :
    dlRecords [] = Except.error WErr.invalidFormat :=
  (record_iteration_never_errors.2 [] WErr.invalidFormat).mpr ⟨rfl, by decide⟩

/-- C3 (code bug): the bit-field round-trip fails at bit width 64.
Registering `int64 a:64` produces a packed layout whose single bit-field
sits at storage offset 0, bit offset 0 of one full 64-bit unit (not
spanning).  The buffer `leBytes 1 8` stores the value v = 1 at exactly
that computed position, yet `deserialize_bitfield` returns 0, not 1: its
mask is `(1u64 << 64) - 1`, which is 0 under release-mode masked shifting
(and a panic in a debug build), so the extracted bits are wiped.  For
every width below the storage width the extraction is correct; the claim's
`w = 64` case contradicts the code. -/
theorem bitfield_width64_roundtrip_fails :
    registerStruct [] (strBytes ("S")) (strBytes ("int64 a:64"))
      = Except.ok [(strBytes ("S"), ⟨strBytes ("S"),
          [.bitField ⟨strBytes ("a"), .int64, 64, 0, 0, false, none⟩], 8⟩)]
    ∧ leBytes 1 8 = [1, 0, 0, 0, 0, 0, 0, 0]
    ∧ deserializeBitfield ⟨strBytes ("a"), .int64, 64, 0, 0, false, none⟩
        (leBytes 1 8) = Except.ok (FieldValue.int64V 0)
    ∧ (0 : Int) ≠ 1 :=
  ⟨rfl, rfl, rfl, by decide⟩

theorem coalRest_snoc (l : List Int) (prev t : Int) :
    coalRest prev (l ++ [t]) =
      if l.getLastD prev = t then coalRest prev l
      else coalRest prev l ++ [t] := by
  induction l generalizing prev with
  | nil =>
    by_cases h : t = prev
    · simp [coalRest, h]
    · simp only [List.nil_append, coalRest, List.getLastD_nil]
      rw [if_neg h, if_neg (fun hh => h hh.symm)]
  | cons b l ih =>
    simp only [List.cons_append, coalRest, List.getLastD_cons, List.append_eq]
    by_cases hb : b = prev
    · subst hb
      rw [if_pos rfl, if_pos rfl, ih]
    · rw [if_neg hb, if_neg hb, ih]
      split <;> simp

theorem coalRest_getLastD (l : List Int) (prev : Int) :
    (coalRest prev l).getLastD prev = l.getLastD prev := by
  induction l generalizing prev with
  | nil => rfl
  | cons b l ih =>
    simp only [coalRest, List.getLastD_cons]
    by_cases hb : b = prev
    · rw [if_pos hb]
      subst hb
      exact ih b
    · rw [if_neg hb, List.getLastD_cons, ih b]

theorem coalesce_snoc (pts : List Int) (t d : Int) (h : pts ≠ []) :
    coalesce (pts ++ [t]) =
      if pts.getLastD d = t then coalesce pts else coalesce pts ++ [t] := by
  match pts with
  | [] => exact absurd rfl h
  | a :: l =>
    simp only [List.cons_append, coalesce, coalRest_snoc, List.getLastD_cons]
    split <;> simp

theorem coalesce_getLastD (pts : List Int) (d : Int) :
    (coalesce pts).getLastD d = pts.getLastD d := by
  match pts with
  | [] => rfl
  | a :: l =>
    simp only [coalesce, List.getLastD_cons]
    exact coalRest_getLastD l a

/-- The trailing singleton of the row under construction. -/
def curTsList (st : AccState) : List Int :=
  match st.curTs with
  | some t => [t]
  | none => []

theorem getFinishEntry_of_isFinish {r : DataLogRecord} (h : isFinish r = true) :
    getFinishEntry r = Except.ok (readVarint (r.data.drop 1) 4) := by
  unfold getFinishEntry
  rw [if_pos h]

theorem isFinish_isControl {r : DataLogRecord} (h : isFinish r = true) :
    isControl r = true := by
  unfold isFinish at h
  unfold isControl
  simp only [Bool.and_eq_true] at h
  exact h.1.1

theorem flushIfNew_none {schema : WpilogSchema} {st : AccState} {t : Int}
    (h : st.curTs = none) :
    flushIfNew schema st t = { st with curTs := some t } := by
  unfold flushIfNew
  rw [h]

theorem flushIfNew_stay {schema : WpilogSchema} {st : AccState} {t ts0 : Int}
    (h : st.curTs = some ts0) (he : ts0 = t) :
    flushIfNew schema st t = st := by
  unfold flushIfNew
  rw [h]
  simp [he]

theorem flushIfNew_flush {schema : WpilogSchema} {st : AccState} {t ts0 : Int}
    (h : st.curTs = some ts0) (hne : ts0 ≠ t) :
    flushIfNew schema st t =
      { st with
        tsCol := st.tsCol ++ [ts0],
        rows := st.rows ++ [st.curVals],
        curVals := List.replicate schema.columns.length none,
        curTs := some t } := by
  unfold flushIfNew
  rw [h]
  simp [hne]

theorem accumStep_inv (schema : WpilogSchema) (reg : StructRegistry)
    (st st' : AccState) (r : DataLogRecord) (pts : List Int)
    (h2 : st.tsCol ++ curTsList st = coalesce pts)
    (h3 : st.curTs = none ↔ pts = [])
    (hstep : accumStep schema reg st r = Except.ok st') :
    st'.finished = p2Fin st.finished r ∧
    st'.tsCol ++ curTsList st' =
      coalesce (pts ++ (if p2Processed schema st.finished r
        then [i64OfU64 r.timestamp] else [])) ∧
    (st'.curTs = none ↔
      (pts ++ (if p2Processed schema st.finished r
        then [i64OfU64 r.timestamp] else [])) = []) := by
  unfold accumStep at hstep
  by_cases hc : isControl r
  · rw [if_pos hc] at hstep
    have hproc : p2Processed schema st.finished r = false := by
      unfold p2Processed
      rw [hc]
      simp
    have hife : (if p2Processed schema st.finished r
        then [i64OfU64 r.timestamp] else []) = ([] : List Int) := by
      simp [hproc]
    rw [hife, List.append_nil]
    by_cases hf : isFinish r
    · rw [if_pos hf, getFinishEntry_of_isFinish hf] at hstep
      simp only [bind, Except.bind, Except.ok.injEq] at hstep
      subst hstep
      exact ⟨by simp [p2Fin, hf], h2, h3⟩
    · rw [if_neg hf] at hstep
      simp only [Except.ok.injEq] at hstep
      subst hstep
      exact ⟨by simp [p2Fin, hf], h2, h3⟩
  · rw [if_neg hc] at hstep
    have hcf : isControl r = false := by
      revert hc
      cases isControl r <;> simp
    have hnf : isFinish r = false := by
      cases hfin : isFinish r
      · rfl
      · exact absurd (isFinish_isControl hfin) hc
    have hfin : p2Fin st.finished r = st.finished := by simp [p2Fin, hnf]
    rw [hfin]
    by_cases hmem : st.finished.contains r.entry
    · rw [if_pos hmem] at hstep
      simp only [Except.ok.injEq] at hstep
      subst hstep
      have hproc : p2Processed schema st.finished r = false := by
        unfold p2Processed
        rw [hmem]
        simp
      have hife : (if p2Processed schema st.finished r
          then [i64OfU64 r.timestamp] else []) = ([] : List Int) := by
        simp [hproc]
      rw [hife, List.append_nil]
      exact ⟨rfl, h2, h3⟩
    · rw [if_neg hmem] at hstep
      have hmemf : st.finished.contains r.entry = false := by
        revert hmem
        cases st.finished.contains r.entry <;> simp
      cases hcol : getColumnByEntry schema r.entry with
      | none =>
        rw [hcol] at hstep
        simp only [Except.ok.injEq] at hstep
        subst hstep
        have hproc : p2Processed schema st.finished r = false := by
          unfold p2Processed
          rw [hcol]
          simp
        have hife : (if p2Processed schema st.finished r
            then [i64OfU64 r.timestamp] else []) = ([] : List Int) := by
          simp [hproc]
        rw [hife, List.append_nil]
        exact ⟨rfl, h2, h3⟩
      | some ci =>
        rw [hcol] at hstep
        dsimp only at hstep
        have hproc : p2Processed schema st.finished r = true := by
          unfold p2Processed
          rw [hcf, hmemf, hcol]
          simp
        have hife : (if p2Processed schema st.finished r
            then [i64OfU64 r.timestamp] else []) = [i64OfU64 r.timestamp] := by
          simp [hproc]
        rw [hife]
        cases hpv : parseRecordValue reg ci.dtype r with
        | error e =>
          rw [hpv] at hstep
          simp only [bind, Except.bind] at hstep
          cases hstep
        | ok v =>
          rw [hpv] at hstep
          simp only [bind, Except.bind, Except.ok.injEq] at hstep
          cases hcur : st.curTs with
          | none =>
            have hpts : pts = [] := h3.mp hcur
            subst hpts
            rw [flushIfNew_none hcur] at hstep
            subst hstep
            have hct : curTsList st = [] := by
              unfold curTsList
              rw [hcur]
            have htsnil : st.tsCol = [] := by
              rw [hct] at h2
              simpa [coalesce] using h2
            refine ⟨rfl, ?_, ?_⟩
            · simp [curTsList, htsnil, coalesce, coalRest]
            · simp [curTsList]
          | some ts0 =>
            have hptsne : pts ≠ [] := fun hnil => by
              rw [hcur] at h3
              exact Option.noConfusion (h3.mpr hnil)
            have hct : curTsList st = [ts0] := by
              unfold curTsList
              rw [hcur]
            have hlast : pts.getLastD 0 = ts0 := by
              have hco := coalesce_getLastD pts 0
              rw [← h2, hct] at hco
              rw [← hco]
              simp
            by_cases hne : ts0 ≠ i64OfU64 r.timestamp
            · rw [flushIfNew_flush hcur hne] at hstep
              subst hstep
              rw [coalesce_snoc pts (i64OfU64 r.timestamp) 0 hptsne,
                if_neg (by rw [hlast]; exact hne)]
              refine ⟨rfl, ?_, ?_⟩
              · rw [← h2, hct]
                simp [curTsList]
              · simp [curTsList]
            · push_neg at hne
              rw [flushIfNew_stay hcur hne] at hstep
              subst hstep
              rw [coalesce_snoc pts (i64OfU64 r.timestamp) 0 hptsne,
                if_pos (hlast.trans hne)]
              refine ⟨rfl, ?_, ?_⟩
              · rw [← h2, hct]
                simp [curTsList, hcur]
              · simp [curTsList, hcur, hptsne]

theorem p2Ts_cons (schema : WpilogSchema) (fin : List Nat)
    (r : DataLogRecord) (rs : List DataLogRecord) :
    p2Ts schema fin (r :: rs) =
      (if p2Processed schema fin r then [i64OfU64 r.timestamp] else [])
        ++ p2Ts schema (p2Fin fin r) rs := by
  simp only [p2Ts]
  by_cases hp : p2Processed schema fin r
  · simp [hp]
  · simp [hp]

theorem accumFold_inv (schema : WpilogSchema) (reg : StructRegistry) :
    ∀ (records : List DataLogRecord) (st : AccState) (pts : List Int)
      (st' : AccState),
    st.tsCol ++ curTsList st = coalesce pts →
    (st.curTs = none ↔ pts = []) →
    List.foldlM (accumStep schema reg) st records = Except.ok st' →
    st'.tsCol ++ curTsList st' =
        coalesce (pts ++ p2Ts schema st.finished records) ∧
      (st'.curTs = none ↔ (pts ++ p2Ts schema st.finished records) = []) := by
  intro records
  induction records with
  | nil =>
    intro st pts st' h2 h3 hfold
    simp only [List.foldlM] at hfold
    cases hfold
    simp only [p2Ts, List.append_nil]
    exact ⟨h2, h3⟩
  | cons r rs ih =>
    intro st pts st' h2 h3 hfold
    simp only [List.foldlM, bind, Except.bind] at hfold
    cases hs : accumStep schema reg st r with
    | error e =>
      rw [hs] at hfold
      cases hfold
    | ok st1 =>
      rw [hs] at hfold
      obtain ⟨hfin1, h21, h31⟩ :=
        accumStep_inv schema reg st st1 r pts h2 h3 hs
      have hih := ih st1 _ st' h21 h31 hfold
      rw [hfin1] at hih
      rw [p2Ts_cons, ← List.append_assoc]
      exact hih

theorem accumulateData_timestamps (schema : WpilogSchema)
    (reg : StructRegistry) (records : List DataLogRecord) (df : DataFrameM)
    (h : accumulateData schema reg records = Except.ok df) :
    df.timestamps = coalesce (p2Ts schema [] records) := by
  unfold accumulateData at h
  dsimp only at h
  cases hfold : List.foldlM (accumStep schema reg)
      ⟨none, List.replicate schema.columns.length none, [], [], []⟩ records with
  | error e =>
    rw [hfold] at h
    simp only [bind, Except.bind] at h
    cases h
  | ok st =>
    rw [hfold] at h
    simp only [bind, Except.bind] at h
    obtain ⟨h2, h3⟩ := accumFold_inv schema reg records _ [] st
      (by simp [curTsList, coalesce]) (by simp) hfold
    simp only [List.nil_append] at h2 h3
    cases hcur : st.curTs with
    | some ts =>
      rw [hcur] at h
      simp only [Except.ok.injEq] at h
      subst h
      rw [← h2]
      unfold curTsList
      rw [hcur]
    | none =>
      rw [hcur] at h
      simp only [Except.ok.injEq] at h
      subst h
      rw [← h2]
      unfold curTsList
      rw [hcur]
      simp

theorem coalRest_eq_firstOccur :
    ∀ (l : List Int) (a : Int), List.Chain' (· ≤ ·) (a :: l) →
      coalRest a l = firstOccur (l.filter (fun x => x ≠ a)) := by
  intro l
  induction l with
  | nil =>
    intro a _
    simp [coalRest, firstOccur]
  | cons b l ih =>
    intro a hch
    have hab : a ≤ b := (List.chain'_cons.mp hch).1
    have hbl : List.Chain' (· ≤ ·) (b :: l) := (List.chain'_cons.mp hch).2
    by_cases hba : b = a
    · subst hba
      simp only [coalRest, if_pos rfl, List.filter_cons]
      have : (decide (b ≠ b)) = false := by simp
      rw [this]
      exact ih b hbl
    · have hblAll : ∀ x ∈ l, b ≤ x := by
        have hp := (List.chain'_iff_pairwise.mp hbl)
        intro x hx
        exact List.rel_of_pairwise_cons hp hx
      have hnoA : ∀ x ∈ l, ¬x = a := by
        intro x hx hxa
        subst hxa
        exact hba (le_antisymm (hblAll _ hx) hab)
      have hfc : (b :: l).filter (fun x => x ≠ a) = b :: l := by
        simp only [List.filter_cons]
        simp [hba]
        exact hnoA
      rw [hfc]
      simp only [coalRest, if_neg hba, firstOccur]
      rw [ih b hbl]

theorem coalesce_eq_firstOccur (l : List Int)
    (h : List.Chain' (· ≤ ·) l) : coalesce l = firstOccur l := by
  cases l with
  | nil => simp [coalesce, firstOccur]
  | cons a l =>
    simp only [coalesce, firstOccur]
    rw [coalRest_eq_firstOccur l a h]

theorem p2Ts_eq_map (schema : WpilogSchema) :
    ∀ (fin : List Nat) (records : List DataLogRecord),
    p2Ts schema fin records = (p2TsRaw schema fin records).map i64OfU64 := by
  intro fin records
  induction records generalizing fin with
  | nil => rfl
  | cons r rs ih =>
    simp only [p2Ts, p2TsRaw]
    by_cases hp : p2Processed schema fin r
    · simp [hp, ih]
    · simp [hp, ih]

/-- C1: for the row accumulator of `parse` (pass 2), whenever it returns a
DataFrame, column 0 (`timestamp`) is exactly the coalesced timeline of the
processed data records: maximal runs of equal consecutive timestamps
merged into one row, i.e. a row is flushed exactly when a record's
timestamp differs (strict inequality) from the row under construction, and
the final row is flushed at end of iteration iff a current timestamp is
set.  The height equals the length of that timeline, and on monotonic
(well-formed) inputs the timeline is precisely the distinct timestamps in
order of first appearance. -/
theorem dataframe_timeline_correct (schema : WpilogSchema)
    (reg : StructRegistry) (records : List DataLogRecord) (df : DataFrameM)
    (h : accumulateData schema reg records = Except.ok df) :
    df.timestamps = coalesce (p2Ts schema [] records) ∧
    df.height = (coalesce (p2Ts schema [] records)).length ∧
    (List.Chain' (· ≤ ·) (p2Ts schema [] records) →
      df.timestamps = firstOccur (p2Ts schema [] records)) := by
  have hts := accumulateData_timestamps schema reg records df h
  refine ⟨hts, ?_, fun hch => ?_⟩
  · rw [DataFrameM.height, hts]
  · rw [hts, coalesce_eq_firstOccur _ hch]

/-- Witness for C1 at a concrete one-column log with records at timestamps
5, 5, 7: the frame has the coalesced timeline [5, 7]. -/
theorem dataframe_timeline_correct_witness :
    (⟨[5, 7], [[some (PolarsValue.float64V 4611686018427387904)],
        [some (PolarsValue.float64V 4611686018427387904)]]⟩ : DataFrameM).timestamps
        = coalesce (p2Ts ⟨[⟨1, strBytes ("x"), .float64, []⟩], [(1, 0)]⟩ []
          [⟨1, 5, [0, 0, 0, 0, 0, 0, 0, 64]⟩, ⟨1, 5, [0, 0, 0, 0, 0, 0, 0, 64]⟩,
            ⟨1, 7, [0, 0, 0, 0, 0, 0, 0, 64]⟩]) ∧
    (⟨[5, 7], [[some (PolarsValue.float64V 4611686018427387904)],
        [some (PolarsValue.float64V 4611686018427387904)]]⟩ : DataFrameM).height
        = (coalesce (p2Ts ⟨[⟨1, strBytes ("x"), .float64, []⟩], [(1, 0)]⟩ []
          [⟨1, 5, [0, 0, 0, 0, 0, 0, 0, 64]⟩, ⟨1, 5, [0, 0, 0, 0, 0, 0, 0, 64]⟩,
            ⟨1, 7, [0, 0, 0, 0, 0, 0, 0, 64]⟩])).length ∧
    (List.Chain' (· ≤ ·) (p2Ts ⟨[⟨1, strBytes ("x"), .float64, []⟩], [(1, 0)]⟩ []
          [⟨1, 5, [0, 0, 0, 0, 0, 0, 0, 64]⟩, ⟨1, 5, [0, 0, 0, 0, 0, 0, 0, 64]⟩,
            ⟨1, 7, [0, 0, 0, 0, 0, 0, 0, 64]⟩]) →
      (⟨[5, 7], [[some (PolarsValue.float64V 4611686018427387904)],
          [some (PolarsValue.float64V 4611686018427387904)]]⟩ : DataFrameM).timestamps
        = firstOccur (p2Ts ⟨[⟨1, strBytes ("x"), .float64, []⟩], [(1, 0)]⟩ []
          [⟨1, 5, [0, 0, 0, 0, 0, 0, 0, 64]⟩, ⟨1, 5, [0, 0, 0, 0, 0, 0, 0, 64]⟩,
            ⟨1, 7, [0, 0, 0, 0, 0, 0, 0, 64]⟩])) :=
  dataframe_timeline_correct ⟨[⟨1, strBytes ("x"), .float64, []⟩], [(1, 0)]⟩ []
    [⟨1, 5, [0, 0, 0, 0, 0, 0, 0, 64]⟩, ⟨1, 5, [0, 0, 0, 0, 0, 0, 0, 64]⟩,
      ⟨1, 7, [0, 0, 0, 0, 0, 0, 0, 64]⟩]
    ⟨[5, 7], [[some (PolarsValue.float64V 4611686018427387904)],
      [some (PolarsValue.float64V 4611686018427387904)]]⟩ (by rfl)

/-- C10: the timestamp written to the output timestamp column is the
record's unsigned 64-bit microsecond timestamp reinterpreted as a
two's-complement signed 64-bit integer (`record.timestamp as i64`): the
timestamp column is the coalesced timeline of the processed records'
raw `u64` timestamps mapped through that cast; at `2^63` the cast yields
the unsigned value minus `2^64`, which is negative, and a concrete log
with a record at timestamp `2^63` stores exactly that negative value. -/
theorem timestamp_u64_reinterpreted (schema : WpilogSchema)
    (reg : StructRegistry) (records : List DataLogRecord) (df : DataFrameM)
    (h : accumulateData schema reg records = Except.ok df) :
    df.timestamps = coalesce ((p2TsRaw schema [] records).map i64OfU64) ∧
    i64OfU64 (2 ^ 63) = (2 ^ 63 : Int) - 2 ^ 64 ∧
    i64OfU64 (2 ^ 63) < 0 ∧
    accumulateData ⟨[⟨1, strBytes ("n"), .int64, []⟩], [(1, 0)]⟩ []
        [⟨1, 2 ^ 63, leBytes 42 8⟩]
      = Except.ok ⟨[i64OfU64 (2 ^ 63)], [[some (PolarsValue.int64V 42)]]⟩ := by
  refine ⟨?_, by decide, by decide, by rfl⟩
  rw [accumulateData_timestamps schema reg records df h, p2Ts_eq_map]

/-- Witness for C10 at the concrete one-record log of the theorem's final
conjunct. -/
theorem timestamp_u64_reinterpreted_witness :
    (⟨[i64OfU64 (2 ^ 63)], [[some (PolarsValue.int64V 42)]]⟩
        : DataFrameM).timestamps
      = coalesce ((p2TsRaw ⟨[⟨1, strBytes ("n"), .int64, []⟩], [(1, 0)]⟩ []
          [⟨1, 2 ^ 63, leBytes 42 8⟩]).map i64OfU64) ∧
    i64OfU64 (2 ^ 63) = (2 ^ 63 : Int) - 2 ^ 64 ∧
    i64OfU64 (2 ^ 63) < 0 ∧
    accumulateData ⟨[⟨1, strBytes ("n"), .int64, []⟩], [(1, 0)]⟩ []
        [⟨1, 2 ^ 63, leBytes 42 8⟩]
      = Except.ok ⟨[i64OfU64 (2 ^ 63)], [[some (PolarsValue.int64V 42)]]⟩ :=
  timestamp_u64_reinterpreted ⟨[⟨1, strBytes ("n"), .int64, []⟩], [(1, 0)]⟩ []
    [⟨1, 2 ^ 63, leBytes 42 8⟩]
    ⟨[i64OfU64 (2 ^ 63)], [[some (PolarsValue.int64V 42)]]⟩ (by rfl)

/-- C6: the frame decoder reads one descriptor byte whose bits [0..1]
encode `entry_len - 1` (1..4 bytes), bits [2..3] `size_len - 1`, bits
[4..6] `timestamp_len - 1` (1..8 bytes), with bit 7 ignored; then the
entry id, payload size and timestamp as little-endian zero-extended
unsigned integers of those widths, then exactly payload-size bytes of
payload: decoding a record framed per the specification recovers exactly
the declared entry id, timestamp and payload, for either value of the
reserved bit, leaving the trailing bytes for the next record. -/
theorem frame_record_decode
    (eL sL tL b7 entry ts : Nat) (payload rest : List Nat)
    (heL1 : 1 ≤ eL) (heL2 : eL ≤ 4)
    (hsL1 : 1 ≤ sL) (hsL2 : sL ≤ 4)
    (htL1 : 1 ≤ tL) (htL2 : tL ≤ 8)
    (hb7 : b7 ≤ 1)
    (hentry : entry < 2 ^ (8 * eL))
    (hsize : payload.length < 2 ^ (8 * sL))
    (hts : ts < 2 ^ (8 * tL)) :
    dlNextS (encodeRecord eL sL tL b7 entry ts payload ++ rest)
      = some (Except.ok ⟨entry, ts, payload⟩,
          1 + eL + sL + tL + payload.length) := by
  have hA : (leBytes entry eL).length = eL := leBytes_length _ _
  have hB : (leBytes payload.length sL).length = sL := leBytes_length _ _
  have hC : (leBytes ts tL).length = tL := leBytes_length _ _
  set d : Nat := (eL - 1) + 4 * (sL - 1) + 16 * (tL - 1) + 128 * b7 with hdDef
  set A := leBytes entry eL with hADef
  set B := leBytes payload.length sL with hBDef
  set C := leBytes ts tL with hCDef
  have hsEq : encodeRecord eL sL tL b7 entry ts payload ++ rest
      = d :: (A ++ (B ++ (C ++ (payload ++ rest)))) := by
    simp [encodeRecord, List.append_assoc]
  rw [hsEq]
  have hEntryLen : dlEntryLen d = eL := by unfold dlEntryLen; omega
  have hSizeLen : dlSizeLen d = sL := by unfold dlSizeLen; omega
  have hTsLen : dlTsLen d = tL := by unfold dlTsLen; omega
  have hgd : (d :: (A ++ (B ++ (C ++ (payload ++ rest))))).getD 0 0 = d := rfl
  have hlen : (d :: (A ++ (B ++ (C ++ (payload ++ rest))))).length
      = 1 + eL + sL + tL + payload.length + rest.length := by
    simp [hA, hB, hC]
    omega
  have hd1 : (d :: (A ++ (B ++ (C ++ (payload ++ rest))))).drop 1
      = A ++ (B ++ (C ++ (payload ++ rest))) := rfl
  have hdA : (A ++ (B ++ (C ++ (payload ++ rest)))).drop eL
      = B ++ (C ++ (payload ++ rest)) := by
    rw [← hA, List.drop_left]
  have hdB : (B ++ (C ++ (payload ++ rest))).drop sL
      = C ++ (payload ++ rest) := by
    rw [← hB, List.drop_left]
  have hdC : (C ++ (payload ++ rest)).drop tL = payload ++ rest := by
    rw [← hC, List.drop_left]
  have hd2 : (d :: (A ++ (B ++ (C ++ (payload ++ rest))))).drop (1 + eL)
      = B ++ (C ++ (payload ++ rest)) := by
    rw [Nat.add_comm 1 eL, List.drop_succ_cons, hdA]
  have hd3 : (d :: (A ++ (B ++ (C ++ (payload ++ rest))))).drop (1 + eL + sL)
      = C ++ (payload ++ rest) := by
    have : 1 + eL + sL = (eL + sL) + 1 := by omega
    rw [this, List.drop_succ_cons, ← List.drop_drop, hdA, hdB]
  have hd4 : (d :: (A ++ (B ++ (C ++ (payload ++ rest))))).drop
        (1 + eL + sL + tL) = payload ++ rest := by
    have h1 : 1 + eL + sL + tL = (eL + sL + tL) + 1 := by omega
    rw [h1, List.drop_succ_cons]
    have hre : A ++ (B ++ (C ++ (payload ++ rest)))
        = (A ++ B ++ C) ++ (payload ++ rest) := by
      simp [List.append_assoc]
    have hlen3 : (A ++ B ++ C).length = eL + sL + tL := by
      simp [hA, hB, hC]
      omega
    rw [hre, ← hlen3, List.drop_left]
  have hv1 : readVarint (A ++ (B ++ (C ++ (payload ++ rest)))) eL = entry :=
    readVarint_leBytes eL entry _ hentry
  have hv2 : readVarint (B ++ (C ++ (payload ++ rest))) sL = payload.length :=
    readVarint_leBytes sL payload.length _ hsize
  have hv3 : readVarint (C ++ (payload ++ rest)) tL = ts :=
    readVarint_leBytes tL ts _ hts
  have hv4 : (payload ++ rest).take payload.length = payload :=
    List.take_left payload rest
  unfold dlNextS
  dsimp only
  rw [hgd, hEntryLen, hSizeLen, hTsLen, hlen, hd1, hd2, hd3, hd4, hv1, hv2,
    hv3, hv4]
  rw [if_neg (by omega), if_neg (by omega), if_neg (by omega)]
  have hmod : entry % 2 ^ 32 = entry := by
    apply Nat.mod_eq_of_lt
    calc entry < 2 ^ (8 * eL) := hentry
    _ ≤ 2 ^ 32 := Nat.pow_le_pow_right (by omega) (by omega)
  rw [hmod]

/-- Witness for C6 at a concrete record: entry 1, timestamp 2, payload
`[42]`, one-byte fields, reserved bit set. -/
theorem frame_record_decode_witness :
    dlNextS (encodeRecord 1 1 1 1 1 2 [42] ++ [7, 7])
      = some (Except.ok ⟨1, 2, [42]⟩, 1 + 1 + 1 + 1 + [42].length) :=
  frame_record_decode 1 1 1 1 1 2 [42] [7, 7]
    (by decide) (by decide) (by decide) (by decide) (by decide) (by decide)
    (by decide) (by decide) (by decide) (by decide)

deriving instance DecidableEq for Except

/-- The keyword for each bit-field integer type (the inverse of
`parse_integer_type`, used to state parser acceptance). -/
def intTypeToken : IntegerType → List Nat
  | .boolT => strBytes ("bool")
  | .int8 => strBytes ("int8")
  | .int16 => strBytes ("int16")
  | .int32 => strBytes ("int32")
  | .int64 => strBytes ("int64")
  | .uint8 => strBytes ("uint8")
  | .uint16 => strBytes ("uint16")
  | .uint32 => strBytes ("uint32")
  | .uint64 => strBytes ("uint64")

/-- C5 counterexample: the claim says every bit width 1..8 is legal on
`bool`, but the parser rejects `bool b:2` (`max_bits(bool) = 1` in the
code), even though 2 lies in the claimed range 1..8. -/
theorem bool_bitfield_width2_rejected :
    parseBitfieldDeclaration (strBytes ("bool b:2"))
        = Except.error WErr.parseError
    ∧ 1 ≤ 2 ∧ 2 ≤ 8 := by
  refine ⟨by rfl, by decide, by decide⟩

/-- C5 (amended): the parser accepts a bit-field declaration iff
`1 ≤ BITS ≤ max_bits(INT_TYPE)` where `max_bits(bool) = 1` — not 8: on
`bool` only the width 1 is legal.  Soundness: every accepted bit-field has
its width in that range.  Completeness: for every integer type and every
width in range, the declaration `TYPE x:BITS` parses to exactly that
bit-field. -/
theorem bitfield_width_validation :
    (∀ (decl : List Nat) (f : BitFieldDecl),
      parseBitfieldDeclaration decl = Except.ok (.bitField f) →
        1 ≤ f.bitWidth ∧ f.bitWidth ≤ f.intType.maxBits) ∧
    (∀ (t : IntegerType) (b : Nat), 1 ≤ b → b ≤ t.maxBits →
      parseBitfieldDeclaration
          (intTypeToken t ++ strBytes (" x:") ++ strBytes (Nat.repr b))
        = Except.ok (.bitField ⟨strBytes ("x"), t, b, 0, 0, false, none⟩)) ∧
    IntegerType.maxBits .boolT = 1 := by
  refine ⟨?_, ?_, rfl⟩
  · intro decl f h
    unfold parseBitfieldDeclaration at h
    simp only [bind, Except.bind] at h
    repeat' split at h
    all_goals try exact Except.noConfusion h
    all_goals simp_all
    all_goals (subst h; dsimp only; omega)
  · intro t b hb1 hb2
    have hb65 : b < 65 := by
      have : t.maxBits ≤ 64 := by cases t <;> decide
      omega
    have H : ∀ b ∈ (List.range 65).filter
          (fun b => decide (1 ≤ b) && decide (b ≤ t.maxBits)),
        parseBitfieldDeclaration
            (intTypeToken t ++ strBytes (" x:") ++ strBytes (Nat.repr b))
          = Except.ok (.bitField ⟨strBytes ("x"), t, b, 0, 0, false, none⟩) := by
      cases t <;> decide
    exact H b (List.mem_filter.mpr
      ⟨List.mem_range.mpr hb65, by simp [hb1, hb2]⟩)

/-- Witness for the amended C5 at a concrete accepted declaration
(`int16 x:9`) and via the soundness direction on its result. -/
theorem bitfield_width_validation_witness :
    parseBitfieldDeclaration
        (intTypeToken .int16 ++ strBytes (" x:") ++ strBytes (Nat.repr 9))
      = Except.ok (.bitField ⟨strBytes ("x"), .int16, 9, 0, 0, false, none⟩) :=
  bitfield_width_validation.2.1 .int16 9 (by decide) (by decide)

theorem readInnerString_spec (pre s post : List Nat) (hs : s.length < 2 ^ 32) :
    readInnerString (pre ++ (leBytes s.length 4 ++ (s ++ post))) pre.length
      = Except.ok (s, pre.length + 4 + s.length) := by
  have hlen : (pre ++ (leBytes s.length 4 ++ (s ++ post))).length
      = pre.length + 4 + s.length + post.length := by
    simp [leBytes_length]
    omega
  have hd0 : (pre ++ (leBytes s.length 4 ++ (s ++ post))).drop pre.length
      = leBytes s.length 4 ++ (s ++ post) := List.drop_left pre _
  have hd4 : (pre ++ (leBytes s.length 4 ++ (s ++ post))).drop (pre.length + 4)
      = s ++ post := by
    have hre : pre ++ (leBytes s.length 4 ++ (s ++ post))
        = (pre ++ leBytes s.length 4) ++ (s ++ post) := by
      simp [List.append_assoc]
    have hl2 : (pre ++ leBytes s.length 4).length = pre.length + 4 := by
      simp [leBytes_length]
    rw [hre, ← hl2, List.drop_left]
  unfold readInnerString
  rw [if_neg (by omega)]
  have hsize : readVarint
      ((pre ++ (leBytes s.length 4 ++ (s ++ post))).drop pre.length) 4
      = s.length := by
    rw [hd0]
    exact readVarint_leBytes 4 s.length _ hs
  dsimp only
  rw [hsize, if_neg (by omega), hd4, List.take_left]

theorem isStart_mkStart (ts entry : Nat) (name typeName metadata : List Nat) :
    isStart (mkStartRecord ts entry name typeName metadata) = true := by
  unfold isStart mkStartRecord startPayload
  simp [leBytes_length]
  omega

theorem isFinish_mkStart (ts entry : Nat) (name typeName metadata : List Nat) :
    isFinish (mkStartRecord ts entry name typeName metadata) = false := by
  unfold isFinish mkStartRecord startPayload
  simp [leBytes_length]

theorem getStartData_mkStart (ts entry : Nat)
    (name typeName metadata : List Nat)
    (hentry : entry < 2 ^ 32) (hn : name.length < 2 ^ 32)
    (ht : typeName.length < 2 ^ 32) (hm : metadata.length < 2 ^ 32) :
    getStartData (mkStartRecord ts entry name typeName metadata)
      = Except.ok ⟨entry, name, typeName, metadata⟩ := by
  unfold getStartData
  rw [if_pos (isStart_mkStart ts entry name typeName metadata)]
  have hpayload : (mkStartRecord ts entry name typeName metadata).data
      = startPayload entry name typeName metadata := rfl
  have hentryv : readVarint
      ((mkStartRecord ts entry name typeName metadata).data.drop 1) 4
      = entry := by
    rw [hpayload]
    unfold startPayload
    rw [List.drop_succ_cons, List.drop_zero]
    exact readVarint_leBytes 4 entry _ hentry
  have hname : readInnerString (mkStartRecord ts entry name typeName metadata).data 5
      = Except.ok (name, 9 + name.length) := by
    rw [hpayload]
    have hre : startPayload entry name typeName metadata
        = (0 :: leBytes entry 4)
          ++ (leBytes name.length 4 ++ (name
            ++ (leBytes typeName.length 4 ++ (typeName
              ++ (leBytes metadata.length 4 ++ metadata))))) := by
      unfold startPayload
      simp [List.append_assoc]
    have hl : (0 :: leBytes entry 4).length = 5 := by simp [leBytes_length]
    rw [hre, ← hl, readInnerString_spec _ _ _ hn, hl]
  have htype : readInnerString
      (mkStartRecord ts entry name typeName metadata).data (9 + name.length)
      = Except.ok (typeName, 13 + name.length + typeName.length) := by
    rw [hpayload]
    have hre : startPayload entry name typeName metadata
        = ((0 :: leBytes entry 4) ++ leBytes name.length 4 ++ name)
          ++ (leBytes typeName.length 4 ++ (typeName
            ++ (leBytes metadata.length 4 ++ metadata))) := by
      unfold startPayload
      simp [List.append_assoc]
    have hl : ((0 :: leBytes entry 4) ++ leBytes name.length 4 ++ name).length
        = 9 + name.length := by
      simp [leBytes_length]
      omega
    rw [hre, ← hl, readInnerString_spec _ _ _ ht, hl]
    norm_num
    omega
  have hmeta : readInnerString
      (mkStartRecord ts entry name typeName metadata).data
      (13 + name.length + typeName.length)
      = Except.ok (metadata, 13 + name.length + typeName.length
          + 4 + metadata.length) := by
    rw [hpayload]
    have hre : startPayload entry name typeName metadata
        = ((0 :: leBytes entry 4) ++ leBytes name.length 4 ++ name
            ++ leBytes typeName.length 4 ++ typeName)
          ++ (leBytes metadata.length 4 ++ (metadata ++ [])) := by
      unfold startPayload
      simp [List.append_assoc]
    have hl : ((0 :: leBytes entry 4) ++ leBytes name.length 4 ++ name
        ++ leBytes typeName.length 4 ++ typeName).length
        = 13 + name.length + typeName.length := by
      simp [leBytes_length]
      omega
    rw [hre, ← hl, readInnerString_spec _ _ _ hm, hl]
  simp only [bind, Except.bind, hentryv, hname, htype, hmeta]

theorem pass1Step_mkStart (st : Pass1State) (ts entry : Nat)
    (name typeName metadata : List Nat)
    (hentry : entry < 2 ^ 32) (hn : name.length < 2 ^ 32)
    (ht : typeName.length < 2 ^ 32) (hm : metadata.length < 2 ^ 32)
    (htype : typeName ≠ strBytes ("structschema")) :
    pass1Step st (mkStartRecord ts entry name typeName metadata)
      = if st.finished.contains entry then Except.ok st
        else Except.ok { st with schema := (addColumn st.schema
            ⟨entry, name, fromWpilogType typeName, metadata⟩) } := by
  unfold pass1Step
  rw [if_pos (isStart_mkStart ts entry name typeName metadata),
    getStartData_mkStart ts entry name typeName metadata hentry hn ht hm]
  simp only [bind, Except.bind]
  rw [if_neg htype]

/-- C8 counterexample: a Start control record declaring entry id 0 (type
`double`, name `x`) is accepted by pass 1 as a column declaration — the
resulting schema contains a column with `entry_id = 0` — refuting the
claim that a Start declaring entry 0 is not accepted. -/
theorem start_entry_zero_accepted :
    buildRegistryAndSchema
        [mkStartRecord 1 0 (strBytes ("x")) (strBytes ("double")) []]
      = Except.ok ([], ⟨[⟨0, strBytes ("x"), PolarsDataType.float64, []⟩],
          [(0, 0)]⟩) := by
  rfl

/-- C8 (amended): neither `get_start_data` nor pass 1 checks that the
declared entry id is nonzero: `get_start_data` decodes a Start record
declaring any entry id — including 0 — successfully, and pass 1 accepts
it as a column declaration whenever its type is not `structschema` and
its entry is not in the finished set, adding a column for that very id to
the schema.  (Data records for entry 0 are nonetheless control records,
so such a column is never populated in pass 2.) -/
theorem start_entry_not_validated (st : Pass1State) (ts entry : Nat)
    (name typeName metadata : List Nat)
    (hentry : entry < 2 ^ 32) (hn : name.length < 2 ^ 32)
    (ht : typeName.length < 2 ^ 32) (hm : metadata.length < 2 ^ 32)
    (htype : typeName ≠ strBytes ("structschema"))
    (hfin : st.finished.contains entry = false) :
    getStartData (mkStartRecord ts entry name typeName metadata)
      = Except.ok ⟨entry, name, typeName, metadata⟩ ∧
    pass1Step st (mkStartRecord ts entry name typeName metadata)
      = Except.ok { st with schema := (addColumn st.schema
          ⟨entry, name, fromWpilogType typeName, metadata⟩) } := by
  refine ⟨getStartData_mkStart ts entry name typeName metadata hentry hn ht hm,
    ?_⟩
  rw [pass1Step_mkStart st ts entry name typeName metadata hentry hn ht hm htype,
    hfin]
  rfl

/-- Witness for the amended C8 at entry id 0 on the initial pass-1
state: the entry-0 Start decodes with entry 0 and adds an entry-0
column. -/
theorem start_entry_not_validated_witness :
    getStartData (mkStartRecord 1 0 (strBytes ("x")) (strBytes ("double")) [])
      = Except.ok ⟨0, strBytes ("x"), strBytes ("double"), []⟩ ∧
    pass1Step pass1Init
        (mkStartRecord 1 0 (strBytes ("x")) (strBytes ("double")) [])
      = Except.ok { pass1Init with schema := (addColumn pass1Init.schema
          ⟨0, strBytes ("x"), fromWpilogType (strBytes ("double")), []⟩) } :=
  start_entry_not_validated pass1Init 1 0 (strBytes ("x"))
    (strBytes ("double")) [] (by decide) (by decide) (by decide) (by decide)
    (by decide) (by rfl)

theorem foldlM_append_except {σ α : Type} (f : σ → α → Except WErr σ)
    (l₁ l₂ : List α) (st : σ) :
    List.foldlM f st (l₁ ++ l₂)
      = List.foldlM f st l₁ >>= fun st2 => List.foldlM f st2 l₂ := by
  induction l₁ generalizing st with
  | nil => simp [List.foldlM_nil]
  | cons a l ih =>
    simp only [List.cons_append, List.foldlM_cons]
    cases hfa : f st a with
    | error e => simp [bind, Except.bind]
    | ok st1 => simp [bind, Except.bind, ih]

theorem isFinish_mkFinish (ts k : Nat) :
    isFinish (mkFinishRecord ts k) = true := by
  unfold isFinish mkFinishRecord
  simp [leBytes_length]

theorem isStart_mkFinish (ts k : Nat) :
    isStart (mkFinishRecord ts k) = false := by
  unfold isStart mkFinishRecord
  simp [leBytes_length]

theorem pass1Step_mkFinish (st : Pass1State) (ts k : Nat) (hk : k < 2 ^ 32) :
    pass1Step st (mkFinishRecord ts k)
      = Except.ok { st with finished := k :: st.finished } := by
  unfold pass1Step
  rw [if_neg (by rw [isStart_mkFinish]; exact Bool.false_ne_true),
    if_pos (isFinish_mkFinish ts k)]
  unfold getFinishEntry
  rw [if_pos (isFinish_mkFinish ts k)]
  have : readVarint ((mkFinishRecord ts k).data.drop 1) 4 = k := by
    unfold mkFinishRecord
    rw [List.drop_succ_cons, List.drop_zero,
      show leBytes k 4 = leBytes k 4 ++ [] from by simp]
    exact readVarint_leBytes 4 k [] hk
  simp only [bind, Except.bind, this]

theorem pass1Step_finished_mono {st st' : Pass1State} {r : DataLogRecord}
    (h : pass1Step st r = Except.ok st') (e : Nat)
    (he : st.finished.contains e = true) :
    st'.finished.contains e = true := by
  unfold pass1Step at h
  simp only [bind, Except.bind] at h
  repeat' split at h
  all_goals try exact Except.noConfusion h
  all_goals simp only [Except.ok.injEq] at h
  all_goals subst h
  all_goals simp_all [List.contains_cons]

theorem accumStep_mkStart (schema : WpilogSchema) (reg : StructRegistry)
    (st : AccState) (ts entry : Nat) (name typeName metadata : List Nat) :
    accumStep schema reg st (mkStartRecord ts entry name typeName metadata)
      = Except.ok st := by
  unfold accumStep
  rw [if_pos (by unfold isControl mkStartRecord; simp),
    if_neg (by rw [isFinish_mkStart]; exact Bool.false_ne_true)]

theorem pass1_splice (tsS k : Nat) (name typeName metadata : List Nat)
    (hk : k < 2 ^ 32) (hn : name.length < 2 ^ 32)
    (ht : typeName.length < 2 ^ 32) (hm : metadata.length < 2 ^ 32)
    (htype : typeName ≠ strBytes ("structschema")) :
    ∀ (X Y : List DataLogRecord) (st : Pass1State),
      st.finished.contains k = true →
      List.foldlM pass1Step st
          (X ++ mkStartRecord tsS k name typeName metadata :: Y)
        = List.foldlM pass1Step st (X ++ Y) := by
  intro X
  induction X with
  | nil =>
    intro Y st hc
    simp only [List.nil_append, List.foldlM_cons]
    rw [pass1Step_mkStart st tsS k name typeName metadata hk hn ht hm htype,
      hc]
    simp [bind, Except.bind]
  | cons x X ih =>
    intro Y st hc
    simp only [List.cons_append, List.foldlM_cons]
    cases hx : pass1Step st x with
    | error e => simp [bind, Except.bind]
    | ok st1 =>
      simp only [bind, Except.bind]
      exact ih Y st1 (pass1Step_finished_mono hx k hc)

theorem pass2_splice (schema : WpilogSchema) (reg : StructRegistry)
    (tsS entry : Nat) (name typeName metadata : List Nat) :
    ∀ (X Y : List DataLogRecord) (st : AccState),
      List.foldlM (accumStep schema reg) st
          (X ++ mkStartRecord tsS entry name typeName metadata :: Y)
        = List.foldlM (accumStep schema reg) st (X ++ Y) := by
  intro X
  induction X with
  | nil =>
    intro Y st
    simp only [List.nil_append, List.foldlM_cons]
    rw [accumStep_mkStart schema reg st tsS entry name typeName metadata]
    simp [bind, Except.bind]
  | cons x X ih =>
    intro Y st
    simp only [List.cons_append, List.foldlM_cons]
    cases hx : accumStep schema reg st x with
    | error e => simp [bind, Except.bind]
    | ok st1 =>
      simp only [bind, Except.bind]
      exact ih Y st1

/-- C2 counterexample: declaring entry 1 (`a`, double), finishing it, then
re-declaring entry 1 (`b`, double) yields a schema with exactly one column
— the original `a` — not both the old and a new column: pass 1 skips a
Start whose entry is in the finished set. -/
theorem reuse_start_skipped_counterexample :
    buildRegistryAndSchema
        [mkStartRecord 1 1 (strBytes ("a")) (strBytes ("double")) [],
         mkFinishRecord 2 1,
         mkStartRecord 3 1 (strBytes ("b")) (strBytes ("double")) []]
      = Except.ok ([], ⟨[⟨1, strBytes ("a"), PolarsDataType.float64, []⟩],
          [(1, 0)]⟩)
    ∧ ([⟨1, strBytes ("a"), PolarsDataType.float64, []⟩]
        : List ColumnInfo).length = 1 := by
  exact ⟨by rfl, by rfl⟩

/-- C2 (amended): a Start for entry id k arriving after a Finish for id k
is skipped by pass 1 — it adds no new column, leaving the schema (and
hence the old column) unchanged — and it is also a no-op for pass 2, so
the whole conversion of the stream with the redefining Start equals the
conversion of the stream without it; the old column's values are
unchanged. -/
theorem start_after_finish_is_noop
    (pre mid post : List DataLogRecord) (tsF tsS k : Nat)
    (name typeName metadata : List Nat)
    (hk : k < 2 ^ 32) (hn : name.length < 2 ^ 32)
    (ht : typeName.length < 2 ^ 32) (hm : metadata.length < 2 ^ 32)
    (htype : typeName ≠ strBytes ("structschema")) :
    convertRecords (pre ++ mkFinishRecord tsF k
        :: (mid ++ mkStartRecord tsS k name typeName metadata :: post))
      = convertRecords (pre ++ mkFinishRecord tsF k :: (mid ++ post)) := by
  have hfold1 : List.foldlM pass1Step pass1Init
      (pre ++ mkFinishRecord tsF k
        :: (mid ++ mkStartRecord tsS k name typeName metadata :: post))
      = List.foldlM pass1Step pass1Init
        (pre ++ mkFinishRecord tsF k :: (mid ++ post)) := by
    rw [foldlM_append_except, foldlM_append_except]
    cases hpre : List.foldlM pass1Step pass1Init pre with
    | error e => simp [bind, Except.bind]
    | ok stp =>
      simp only [bind, Except.bind]
      rw [List.foldlM_cons, List.foldlM_cons, pass1Step_mkFinish stp tsF k hk]
      simp only [bind, Except.bind]
      exact pass1_splice tsS k name typeName metadata hk hn ht hm htype
        mid post { stp with finished := k :: stp.finished } (by simp)
  have hfold2 : ∀ (schema : WpilogSchema) (reg : StructRegistry)
      (st : AccState),
      List.foldlM (accumStep schema reg) st
        (pre ++ mkFinishRecord tsF k
          :: (mid ++ mkStartRecord tsS k name typeName metadata :: post))
      = List.foldlM (accumStep schema reg) st
        (pre ++ mkFinishRecord tsF k :: (mid ++ post)) := by
    intro schema reg st
    have hsp := pass2_splice schema reg tsS k name typeName metadata
      (pre ++ mkFinishRecord tsF k :: mid) post st
    simpa [List.append_assoc] using hsp
  have hbrs : buildRegistryAndSchema
      (pre ++ mkFinishRecord tsF k
        :: (mid ++ mkStartRecord tsS k name typeName metadata :: post))
      = buildRegistryAndSchema
        (pre ++ mkFinishRecord tsF k :: (mid ++ post)) := by
    unfold buildRegistryAndSchema
    rw [hfold1]
  have hacc : ∀ (schema : WpilogSchema) (reg : StructRegistry),
      accumulateData schema reg
        (pre ++ mkFinishRecord tsF k
          :: (mid ++ mkStartRecord tsS k name typeName metadata :: post))
      = accumulateData schema reg
        (pre ++ mkFinishRecord tsF k :: (mid ++ post)) := by
    intro schema reg
    unfold accumulateData
    dsimp only
    rw [hfold2]
  unfold convertRecords
  rw [hbrs]
  cases hb : buildRegistryAndSchema
      (pre ++ mkFinishRecord tsF k :: (mid ++ post)) with
  | error e => simp [bind, Except.bind]
  | ok p =>
    simp only [bind, Except.bind]
    rw [hacc p.2 p.1]

/-- Witness for the amended C2 on a concrete stream: one data column
(entry 2), a finish for entry 1, then a redefining Start for entry 1. -/
theorem start_after_finish_is_noop_witness :
    convertRecords ([mkStartRecord 1 2 (strBytes ("c")) (strBytes ("int64")) []]
        ++ mkFinishRecord 2 1
        :: ([] ++ mkStartRecord 3 1 (strBytes ("b")) (strBytes ("double")) [] :: []))
      = convertRecords ([mkStartRecord 1 2 (strBytes ("c")) (strBytes ("int64")) []]
        ++ mkFinishRecord 2 1 :: ([] ++ [])) :=
  start_after_finish_is_noop
    [mkStartRecord 1 2 (strBytes ("c")) (strBytes ("int64")) []] [] [] 2 3 1
    (strBytes ("b")) (strBytes ("double")) []
    (by decide) (by decide) (by decide) (by decide) (by decide)

/-! ## C4: the layout total-size formula -/

/-- Specification-side byte count of a list of bit-field declarations,
written from the spec's formula: each maximal run of consecutive
bit-fields sharing an underlying integer type, with cumulative bit widths
`B`, consumes exactly `ceil(B / W) * U` bytes, where `W` is the type's bit
width and `U` its byte size. -/
def bitRunBytes : List BitFieldDecl → Nat
  | [] => 0
  | bf :: rest =>
    let group := bf :: rest.takeWhile (fun b => b.intType == bf.intType)
    let totalBits := (group.map (·.bitWidth)).sum
    (totalBits + bf.intType.width - 1) / bf.intType.width * bf.intType.size
      + bitRunBytes (rest.dropWhile (fun b => b.intType == bf.intType))
termination_by l => l.length
decreasing_by
  simp only [List.length_cons]
  exact Nat.lt_succ_of_le (dropWhile_length_le _ rest)

/-- The leading bit-field declarations of underlying type `t` at the head
of a field list. -/
def leadingBits (t : IntegerType) : List StructField → List BitFieldDecl
  | .bitField bf :: rest =>
    if bf.intType == t then bf :: leadingBits t rest else []
  | _ => []

/-- The field list with its leading bit-fields of underlying type `t`
removed. -/
def afterBits (t : IntegerType) : List StructField → List StructField
  | .bitField bf :: rest =>
    if bf.intType == t then afterBits t rest else .bitField bf :: rest
  | l => l

theorem afterBits_length_le (t : IntegerType) (l : List StructField) :
    (afterBits t l).length ≤ l.length := by
  induction l with
  | nil => simp [afterBits]
  | cons f rest ih =>
    cases f with
    | standard f => simp [afterBits]
    | bitField bf =>
      by_cases h : bf.intType == t
      · simp only [afterBits, h, if_true]
        exact Nat.le_succ_of_le ih
      · simp [afterBits, h]

/-- Specification-side total size of a struct, written from the claim's
formula (not from the code): the sum of the byte sizes of the standard
fields plus, for each maximal run of consecutive bit-fields sharing an
underlying type, the `bitRunBytes` ceiling formula. -/
def specTotalSize (reg : StructRegistry) : List StructField → Except WErr Nat
  | [] => Except.ok 0
  | .standard f :: rest => do
    let size ← calcFieldSize reg f.fieldType
    let t ← specTotalSize reg rest
    Except.ok (size + t)
  | .bitField bf :: rest => do
    let group := bf :: leadingBits bf.intType rest
    let totalBits := (group.map (·.bitWidth)).sum
    let t ← specTotalSize reg (afterBits bf.intType rest)
    Except.ok ((totalBits + bf.intType.width - 1) / bf.intType.width
        * bf.intType.size + t)
termination_by l => l.length
decreasing_by
  · simp only [List.length_cons]
    omega
  · simp only [List.length_cons]
    exact Nat.lt_succ_of_le (afterBits_length_le _ rest)

/-- The head of the field list is not a bit-field (or the list is empty):
under this side condition a prefix of bit-field declarations forms whole
runs, so the two grouping styles below agree. -/
def headNotBit : List StructField → Prop
  | .bitField _ :: _ => False
  | _ => True

theorem leadingBits_map_append (t : IntegerType) (rest : List StructField)
    (h : headNotBit rest) :
    ∀ bfs : List BitFieldDecl,
      leadingBits t (bfs.map StructField.bitField ++ rest)
        = bfs.takeWhile (fun b => b.intType == t) := by
  intro bfs
  induction bfs with
  | nil =>
    simp only [List.map_nil, List.nil_append, List.takeWhile_nil]
    cases rest with
    | nil => rfl
    | cons f r =>
      cases f with
      | standard f => rfl
      | bitField bf => exact absurd h (by simp [headNotBit])
  | cons b bfs ih =>
    simp only [List.map_cons, List.cons_append, leadingBits,
      List.takeWhile_cons]
    by_cases hb : b.intType == t
    · simp [hb, ih]
    · simp [hb]

theorem afterBits_map_append (t : IntegerType) (rest : List StructField)
    (h : headNotBit rest) :
    ∀ bfs : List BitFieldDecl,
      afterBits t (bfs.map StructField.bitField ++ rest)
        = (bfs.dropWhile (fun b => b.intType == t)).map StructField.bitField
          ++ rest := by
  intro bfs
  induction bfs with
  | nil =>
    simp only [List.map_nil, List.nil_append, List.dropWhile_nil]
    cases rest with
    | nil => rfl
    | cons f r =>
      cases f with
      | standard f => rfl
      | bitField bf => exact absurd h (by simp [headNotBit])
  | cons b bfs ih =>
    simp only [List.map_cons, List.cons_append, afterBits,
      List.dropWhile_cons]
    by_cases hb : b.intType == t
    · simp [hb, ih]
    · simp [hb]

theorem packBitfieldsFuel_snd :
    ∀ (fuel : Nat) (bfs : List BitFieldDecl) (offset : Nat),
      bfs.length < fuel →
      (packBitfieldsFuel fuel bfs offset).2 = offset + bitRunBytes bfs := by
  intro fuel
  induction fuel with
  | zero => intro bfs offset h; exact absurd h (Nat.not_lt_zero _)
  | succ n ih =>
    intro bfs offset h
    cases bfs with
    | nil => simp [packBitfieldsFuel, bitRunBytes]
    | cons bf rest =>
      have hlen : (rest.dropWhile (fun b => b.intType == bf.intType)).length
          < n := by
        have := dropWhile_length_le (fun b => b.intType == bf.intType) rest
        simp only [List.length_cons] at h
        omega
      simp only [packBitfieldsFuel, bitRunBytes]
      rw [ih _ _ hlen]
      omega

/-- `packBitfields` ends at the start offset plus the spec formula's byte
count for the runs. -/
theorem packBitfields_snd (bfs : List BitFieldDecl) (offset : Nat) :
    (packBitfields bfs offset).2 = offset + bitRunBytes bfs :=
  packBitfieldsFuel_snd (bfs.length + 1) bfs offset (Nat.lt_succ_self _)

/-- Splitting off a whole prefix of bit-field declarations: when the rest
of the list does not begin with a bit-field, the spec total of the whole
list is the run formula on the prefix plus the spec total of the rest. -/
theorem specTotalSize_map_append (reg : StructRegistry)
    (rest : List StructField) (h : headNotBit rest) :
    ∀ (n : Nat) (bfs : List BitFieldDecl), bfs.length ≤ n →
      specTotalSize reg (bfs.map StructField.bitField ++ rest)
        = (specTotalSize reg rest).map (fun t => bitRunBytes bfs + t) := by
  intro n
  induction n with
  | zero =>
    intro bfs hlen
    have hnil : bfs = [] := List.eq_nil_of_length_eq_zero (Nat.le_zero.mp hlen)
    subst hnil
    simp only [List.map_nil, List.nil_append, bitRunBytes]
    cases hs : specTotalSize reg rest <;> simp [Except.map]
  | succ n ih =>
    intro bfs hlen
    cases bfs with
    | nil =>
      simp only [List.map_nil, List.nil_append, bitRunBytes]
      cases hs : specTotalSize reg rest <;> simp [Except.map]
    | cons bf bfr =>
      have hlen2 : (bfr.dropWhile (fun b => b.intType == bf.intType)).length
          ≤ n := by
        have := dropWhile_length_le (fun b => b.intType == bf.intType) bfr
        simp only [List.length_cons] at hlen
        omega
      have hlead := leadingBits_map_append bf.intType rest h bfr
      have hafter := afterBits_map_append bf.intType rest h bfr
      simp only [List.map_cons, List.cons_append, specTotalSize, bitRunBytes,
        hlead, hafter]
      rw [ih _ hlen2]
      cases hs : specTotalSize reg rest <;>
        simp [Except.map, bind, Except.bind, Nat.add_assoc]

/-- Invariant of the layout walk: on success, the total size is the
starting offset plus the spec formula applied to the pending bit-fields
followed by the remaining fields. -/
theorem calcLayoutAux_totalSize (reg : StructRegistry) :
    ∀ (fields : List StructField) (offset : Nat)
      (pending : List BitFieldDecl) (acc : List StructField)
      (L : LayoutResult),
      calcLayoutAux reg fields offset pending acc = Except.ok L →
      ∃ n, specTotalSize reg (pending.map StructField.bitField ++ fields)
          = Except.ok n ∧ L.totalSize = offset + n := by
  intro fields
  induction fields with
  | nil =>
    intro offset pending acc L h
    simp only [calcLayoutAux, Except.ok.injEq] at h
    subst h
    refine ⟨bitRunBytes pending, ?_, ?_⟩
    · rw [specTotalSize_map_append reg [] trivial pending.length pending
        (Nat.le_refl _)]
      simp [specTotalSize, Except.map]
    · simpa using packBitfields_snd pending offset
  | cons fld rest ih =>
    cases fld with
    | standard f =>
      intro offset pending acc L h
      simp only [calcLayoutAux, bind, Except.bind] at h
      cases hs : calcFieldSize reg f.fieldType with
      | error e =>
        rw [hs] at h
        exact Except.noConfusion h
      | ok size =>
        rw [hs] at h
        dsimp only at h
        obtain ⟨n, hspec, htot⟩ := ih _ _ _ _ h
        simp only [List.map_nil, List.nil_append] at hspec
        have hrest : specTotalSize reg (.standard f :: rest)
            = Except.ok (size + n) := by
          simp only [specTotalSize, bind, Except.bind, hs, hspec]
        refine ⟨bitRunBytes pending + (size + n), ?_, ?_⟩
        · rw [specTotalSize_map_append reg (.standard f :: rest) trivial
            pending.length pending (Nat.le_refl _), hrest]
          rfl
        · rw [htot, packBitfields_snd pending offset]
          omega
    | bitField bf =>
      intro offset pending acc L h
      simp only [calcLayoutAux] at h
      obtain ⟨n, hspec, htot⟩ := ih _ _ _ _ h
      refine ⟨n, ?_, htot⟩
      have hl : pending.map StructField.bitField
            ++ (StructField.bitField bf :: rest)
          = (pending ++ [bf]).map StructField.bitField ++ rest := by
        simp
      rw [hl]
      exact hspec

/-- The declared name of a laid-out field. -/
def structFieldName : StructField → List Nat
  | .standard f => f.name
  | .bitField bf => bf.name

theorem packGroup_names (offset typeWidth typeSize : Nat) :
    ∀ (bitOffset : Nat) (grp : List BitFieldDecl),
      (packGroup offset typeWidth typeSize bitOffset grp).map structFieldName
        = grp.map (·.name) := by
  intro bitOffset grp
  induction grp generalizing bitOffset with
  | nil => rfl
  | cons bf rest ih =>
    cases bf
    simp only [packGroup, List.map_cons, structFieldName, ih]

theorem packBitfieldsFuel_names :
    ∀ (fuel : Nat) (bfs : List BitFieldDecl) (offset : Nat),
      bfs.length < fuel →
      ((packBitfieldsFuel fuel bfs offset).1).map structFieldName
        = bfs.map (·.name) := by
  intro fuel
  induction fuel with
  | zero => intro bfs offset h; exact absurd h (Nat.not_lt_zero _)
  | succ n ih =>
    intro bfs offset h
    cases bfs with
    | nil => simp [packBitfieldsFuel]
    | cons bf rest =>
      have hlen : (rest.dropWhile (fun b => b.intType == bf.intType)).length
          < n := by
        have := dropWhile_length_le (fun b => b.intType == bf.intType) rest
        simp only [List.length_cons] at h
        omega
      simp only [packBitfieldsFuel, List.map_append, packGroup_names,
        ih _ _ hlen]
      rw [← List.map_append]
      congr 1
      simp [List.cons_append, List.takeWhile_append_dropWhile]

theorem packBitfields_names (bfs : List BitFieldDecl) (offset : Nat) :
    ((packBitfields bfs offset).1).map structFieldName = bfs.map (·.name) :=
  packBitfieldsFuel_names (bfs.length + 1) bfs offset (Nat.lt_succ_self _)

/-- Invariant of the layout walk: on success, the laid-out field names are
the accumulator's names, then the pending bit-field names, then the names
of the remaining declarations, in order. -/
theorem calcLayoutAux_names (reg : StructRegistry) :
    ∀ (fields : List StructField) (offset : Nat)
      (pending : List BitFieldDecl) (acc : List StructField)
      (L : LayoutResult),
      calcLayoutAux reg fields offset pending acc = Except.ok L →
      L.fields.map structFieldName
        = acc.map structFieldName ++ pending.map (·.name)
          ++ fields.map structFieldName := by
  intro fields
  induction fields with
  | nil =>
    intro offset pending acc L h
    simp only [calcLayoutAux, Except.ok.injEq] at h
    subst h
    simp [List.map_append, packBitfields_names]
  | cons fld rest ih =>
    cases fld with
    | standard f =>
      intro offset pending acc L h
      simp only [calcLayoutAux, bind, Except.bind] at h
      cases hs : calcFieldSize reg f.fieldType with
      | error e =>
        rw [hs] at h
        exact Except.noConfusion h
      | ok size =>
        rw [hs] at h
        dsimp only at h
        rw [ih _ _ _ _ h]
        cases f
        simp [List.map_append, packBitfields_names, structFieldName,
          List.append_assoc]
    | bitField bf =>
      intro offset pending acc L h
      simp only [calcLayoutAux] at h
      rw [ih _ _ _ _ h]
      simp [structFieldName, List.append_assoc]

/-- Concrete schema `double x; int8 a:4; int8 b:4; float y` as declared
fields (offsets and sizes still 0, as the parser produces them). -/
def c4Fields : List StructField :=
  [StructField.standard ⟨strBytes ("x"), FieldType.float64, 0, 0, none⟩,
   StructField.bitField ⟨strBytes ("a"), IntegerType.int8, 4, 0, 0, false, none⟩,
   StructField.bitField ⟨strBytes ("b"), IntegerType.int8, 4, 0, 0, false, none⟩,
   StructField.standard ⟨strBytes ("y"), FieldType.float32, 0, 0, none⟩]

/-- The laid-out fields of `c4Fields`: `x` at offset 0 (8 bytes), one
shared `int8` storage unit at offset 8 holding `a` (bits 0-3) and `b`
(bits 4-7), `y` at offset 9 (4 bytes); total size 13. -/
def c4LayoutFields : List StructField :=
  [StructField.standard ⟨strBytes ("x"), FieldType.float64, 0, 8, none⟩,
   StructField.bitField ⟨strBytes ("a"), IntegerType.int8, 4, 8, 0, false, none⟩,
   StructField.bitField ⟨strBytes ("b"), IntegerType.int8, 4, 8, 4, false, none⟩,
   StructField.standard ⟨strBytes ("y"), FieldType.float32, 9, 4, none⟩]

/-- C4: whenever the layout engine accepts a parsed struct's field list,
the computed total size equals the claim's formula — the sum of the byte
sizes of the standard fields plus, for each maximal run of consecutive
bit-fields sharing an underlying integer type with cumulative bit widths
B, exactly ceil(B / W) * U bytes, where W is the type's bit width and U
its byte size (`specTotalSize`, written from the claim) — and the fields
are laid out in declaration order: the laid-out field names are exactly
the declared names in sequence. -/
theorem struct_total_size_formula (reg : StructRegistry)
    (fields : List StructField) (L : LayoutResult)
    (h : calculateLayout reg fields = Except.ok L) :
    specTotalSize reg fields = Except.ok L.totalSize ∧
    L.fields.map structFieldName = fields.map structFieldName := by
  constructor
  · obtain ⟨n, hspec, htot⟩ := calcLayoutAux_totalSize reg fields 0 [] [] L h
    simp only [List.map_nil, List.nil_append] at hspec
    rw [htot, hspec]
    simp
  · have hn := calcLayoutAux_names reg fields 0 [] [] L h
    simpa using hn

/-- Witness for C4: on `double x; int8 a:4; int8 b:4; float y` the engine
computes total size 13 = 8 + ceil(8/8)*1 + 4, and the laid-out names are
the declared names in order. -/
theorem struct_total_size_formula_witness :
    specTotalSize [] c4Fields = Except.ok 13 ∧
    c4LayoutFields.map structFieldName = c4Fields.map structFieldName :=
  struct_total_size_formula [] c4Fields ⟨c4LayoutFields, 13⟩ rfl
